import Mathlib

/-!
# staticenv: environment accessor

A shallow embedding of `staticenv.go`.  Go strings are Lean `String`s: the
parsers compare the bytes of a string with ASCII characters only, so a string
is read here character by character.  The process environment is a map from
variable names to optional values, and the calls the package makes into the Go
standard library and into `godotenv` appear either as parameters or as
definitions whose doc comment says so.
-/

namespace Staticenv

/-! # Definitions -/

/-! ## Data model -/

/-- The accessor of `staticenv.go`: `type Env struct { Prefix string }`. -/
structure Env where
  Prefix : String
deriving DecidableEq, Repr

/-- The process environment: `none` for an unset variable, `some v` for a
variable set to `v` (possibly the empty string). -/
abbrev Environ := String → Option String

/-- `os.Getenv`: the value of the variable, the empty string when it is unset. -/
def os_Getenv (environ : Environ) (name : String) : String :=
  (environ name).getD ""

/-- `os.Setenv`: the call fails with `EINVAL`, and leaves the environment as it
is, when the name is empty, when the name holds `=` or a NUL, and when the
value holds a NUL; otherwise the variable is set. -/
def os_Setenv (environ : Environ) (key value : String) : Except String Environ :=
  if key = "" then .error "invalid argument"
  else if key.toList.any (fun c => c == '=' || c == Char.ofNat 0) then
    .error "invalid argument"
  else if value.toList.any (fun c => c == Char.ofNat 0) then .error "invalid argument"
  else .ok (fun k => if k = key then some value else environ k)

/-- `NewEnv`: `return &Env{}`, the zero value of the struct. -/
def NewEnv : Env := { Prefix := "" }

/-- `NewEnvWithPrefix`: a zero `Env` whose `Prefix` field is then assigned. -/
def NewEnvWithPrefix (pfx : String) : Env :=
  let env : Env := { Prefix := "" }
  { env with Prefix := pfx }

/-- `SetPrefix`: `env.Prefix = prefix`. -/
def Env.SetPrefix (env : Env) (pfx : String) : Env :=
  { env with Prefix := pfx }

/-! ## Name resolution -/

/-- The first statement of every loop body:
`if env.Prefix != "" { name = env.Prefix + "_" + name }`. -/
def Env.resolveName (env : Env) (name : String) : String :=
  if env.Prefix ≠ "" then env.Prefix ++ "_" ++ name else name

/-- `Getenv`: the loop returns from inside on the first non-empty value, and
the default is returned after the loop. -/
def Env.Getenv (env : Env) (environ : Environ) (dfault : String) : List String → String
  | [] => dfault
  | name :: rest =>
    let value := os_Getenv environ (env.resolveName name)
    if value ≠ "" then value else env.Getenv environ dfault rest

/-- The loop shared by the typed getters: `value` is assigned on every
iteration and the loop is left by `break` on the first non-empty value.  The
second argument is the content of `value` on entry; the result is its content
after the loop. -/
def Env.lookupLoop (env : Env) (environ : Environ) : List String → String → String
  | [], value => value
  | name :: rest, _ =>
    let value := os_Getenv environ (env.resolveName name)
    if value ≠ "" then value else env.lookupLoop environ rest value

/-! ## Standard library parsers -/

/-- The two ways `strconv` number parsing fails: `ErrSyntax` and `ErrRange`. -/
inductive NumError where
  | invalid
  | range
deriving DecidableEq, Repr

deriving instance DecidableEq for Except

/-- Modelled from the spec: `strconv.ParseBool` belongs to the Go standard
library and is not under src/.  It is a switch over twelve literal tokens;
every other string is an error. -/
def strconv_ParseBool (str : String) : Except NumError Bool :=
  if str = "1" ∨ str = "t" ∨ str = "T" ∨ str = "true" ∨ str = "TRUE" ∨ str = "True" then
    .ok true
  else if str = "0" ∨ str = "f" ∨ str = "F" ∨ str = "false" ∨ str = "FALSE" ∨ str = "False" then
    .ok false
  else
    .error .invalid

/-- The digit loop of `strconv.ParseUint` for base 10 and 64 bits: a character
that is not a decimal digit is a syntax error, a value that leaves the unsigned
64-bit range a range error.  The second argument is the accumulator `n`. -/
def parseUintLoop : List Char → Nat → Except NumError Nat
  | [], n => .ok n
  | c :: cs, n =>
    if ¬ c.isDigit then .error .invalid
    else if n ≥ (2 ^ 64 - 1) / 10 + 1 then .error .range
    else
      let n1 := n * 10 + (c.toNat - 48)
      if n1 > 2 ^ 64 - 1 then .error .range
      else parseUintLoop cs n1

/-- Modelled from the spec: `strconv.ParseUint(s, 10, 64)` of the Go standard
library, not under src/: the empty string is a syntax error. -/
def strconv_ParseUint (s : List Char) : Except NumError Nat :=
  if s = [] then .error .invalid else parseUintLoop s 0

/-- The second half of `strconv.ParseInt`, after `ParseUint` has returned:
an error of form is passed on; a range error of `ParseUint` stands for the
largest unsigned value; the magnitude is checked against the cutoff `1 << 63`
and negated under a minus sign. -/
def signedCutoff (neg : Bool) (r : Except NumError Nat) : Except NumError Int :=
  match r with
  | .error .invalid => .error .invalid
  | .error .range =>
    -- `un` is `1<<64 - 1` here, which is over the cutoff under either sign
    .error .range
  | .ok un =>
    if neg = false ∧ un ≥ 2 ^ 63 then .error .range
    else if neg = true ∧ un > 2 ^ 63 then .error .range
    else .ok (if neg then - (un : Int) else (un : Int))

/-- Modelled from the spec: `strconv.ParseInt(s, 10, 0)` of the Go standard
library, not under src/, for a 64-bit `int`: the empty string is a syntax
error; an optional sign is taken off, and the rest goes to `ParseUint`. -/
def strconv_ParseInt (s : List Char) : Except NumError Int :=
  match s with
  | [] => .error .invalid
  | c :: cs =>
    let neg := decide (c = '-')
    let body := if c = '+' ∨ c = '-' then cs else c :: cs
    signedCutoff neg (strconv_ParseUint body)

/-- Modelled from the spec: `strconv.Atoi` of the Go standard library, not
under src/, with a 64-bit `int`.  Its fast path for short strings computes what
`ParseInt(s, 10, 0)` computes. -/
def strconv_Atoi (s : String) : Except NumError Int :=
  strconv_ParseInt s.toList

/-- The helper `leadingInt` of `time.ParseDuration`: consumes the leading
`[0-9]*`, and fails when the value passes `1 << 63`.  The second argument is
the accumulator `x`; the result is the value and the rest of the string. -/
def leadingInt : List Char → Nat → Option (Nat × List Char)
  | [], x => some (x, [])
  | c :: cs, x =>
    if ¬ c.isDigit then some (x, c :: cs)
    else if x > 2 ^ 63 / 10 then none
    else
      let x1 := x * 10 + (c.toNat - 48)
      if x1 > 2 ^ 63 then none
      else leadingInt cs x1

/-- The helper `leadingFraction` of `time.ParseDuration`: consumes the leading
`[0-9]*` and never fails; digits past the overflow point are read and dropped.
The state is `x`, the number of times `scale` was multiplied by ten, and the
`overflow` flag. -/
def leadingFraction : List Char → Nat → Nat → Bool → Nat × Nat × List Char
  | [], x, k, _ => (x, k, [])
  | c :: cs, x, k, overflow =>
    if ¬ c.isDigit then (x, k, c :: cs)
    else if overflow then leadingFraction cs x k overflow
    else if x > (2 ^ 63 - 1) / 10 then leadingFraction cs x k true
    else
      let y := x * 10 + (c.toNat - 48)
      if y > 2 ^ 63 then leadingFraction cs x k true
      else leadingFraction cs y (k + 1) overflow

/-- The table `unitMap` of package `time`, in nanoseconds; the microsecond has
three spellings (`us`, with U+00B5 and with U+03BC). -/
def unitMap (u : String) : Option Nat :=
  if u = "ns" then some 1
  else if u = "us" then some 1000
  else if u = "µs" then some 1000
  else if u = "μs" then some 1000
  else if u = "ms" then some 1000000
  else if u = "s" then some 1000000000
  else if u = "m" then some 60000000000
  else if u = "h" then some 3600000000000
  else none

/-- The test that ends the scan of a unit in `time.ParseDuration`, negated:
`c` is neither a period nor a decimal digit. -/
def isUnitChar (c : Char) : Bool := !(c == '.' || c.isDigit)

/-- The part `(\.[0-9]*)?` of one turn of the loop of `time.ParseDuration`,
on the string left by `leadingInt`: when it starts with a period, the period
is passed and `leadingFraction` reads the digits.  The result is `f`, the
number of times `scale` was multiplied by ten, the flag `post` (a digit was
read after the period), and the string left. -/
def fractionPart (s1 : List Char) : Nat × Nat × Bool × List Char :=
  match s1 with
  | [] => (0, 0, false, s1)
  | c1 :: t =>
    if c1 = '.' then
      let r := leadingFraction t 0 0 false
      (r.1, r.2.1, decide (t.length ≠ r.2.2.length), r.2.2)
    else (0, 0, false, s1)

/-- One turn of the loop `for s != ""` of `time.ParseDuration`: a number, an
optional fraction and a unit are consumed from `s` and the total `d` is
advanced; `none` is any of the error returns.  `fracNanos f unit k` stands for
the float64 expression `uint64(float64(f) * (float64(unit) / scale))`, where
`scale` is ten to the power `k`; it is only evaluated when `f > 0`. -/
def durationStep (fracNanos : Nat → Nat → Nat → Nat) (s : List Char) (d : Nat) :
    Option (List Char × Nat) :=
  match s with
  | [] => none
  | c :: _ =>
    if isUnitChar c then none
    else
      match leadingInt s 0 with
      | none => none
      | some (v, s1) =>
        let pre := decide (s.length ≠ s1.length)
        let (f, k, post, s2) := fractionPart s1
        if pre = false ∧ post = false then none
        else
          let (u, s3) := s2.span isUnitChar
          if u = [] then none
          else
            match unitMap (String.mk u) with
            | none => none
            | some unit =>
              if v > 2 ^ 63 / unit then none
              else
                let v1 := v * unit
                let v2 := if f > 0 then (v1 + fracNanos f unit k) % 2 ^ 64 else v1
                if f > 0 ∧ v2 > 2 ^ 63 then none
                else
                  let d1 := (d + v2) % 2 ^ 64
                  if d1 > 2 ^ 63 then none
                  else some (s3, d1)

/-- The loop `for s != ""` of `time.ParseDuration`, with the unsigned total
`d`.  Every turn consumes at least one character, so a fuel equal to the length
of the string is never exhausted. -/
def durationLoop (fracNanos : Nat → Nat → Nat → Nat) : Nat → List Char → Nat → Option Nat
  | _, [], d => some d
  | 0, _ :: _, _ => none
  | fuel + 1, c :: cs, d =>
    match durationStep fracNanos (c :: cs) d with
    | none => none
    | some (rest, d1) => durationLoop fracNanos fuel rest d1

/-- Modelled from the spec: `time.ParseDuration` of the Go standard library,
not under src/: `[-+]?([0-9]*(\.[0-9]*)?[a-z]+)+`, and the special case `"0"`.
The result is a signed 64-bit count of nanoseconds; `none` is an error. -/
def time_ParseDuration (fracNanos : Nat → Nat → Nat → Nat) (str : String) : Option Int :=
  let s0 := str.toList
  let neg := decide (s0.head? = some '-')
  let s := match s0 with
    | c :: cs => if c = '-' ∨ c = '+' then cs else s0
    | [] => s0
  if s = ['0'] then some 0
  else if s = [] then none
  else
    match durationLoop fracNanos s.length s 0 with
    | none => none
    | some d =>
      if neg then some (- (d : Int) )
      else if d > 2 ^ 63 - 1 then none
      else some (d : Int)

/-! ## Typed getters -/

/-- `GetInt`: the lookup loop, then `strconv.Atoi`. -/
def Env.GetInt (env : Env) (environ : Environ) (dfault : Int) (v : List String) : Int :=
  let value := env.lookupLoop environ v ""
  if value = "" then dfault
  else
    match strconv_Atoi value with
    | .error _ => dfault
    | .ok intValue => intValue

/-- `GetFloat`: the lookup loop, then `strconv.ParseFloat(value, 64)`, which is
a parameter: `F` stands for `float64`. -/
def Env.GetFloat {F : Type} (strconv_ParseFloat : String → Option F)
    (env : Env) (environ : Environ) (dfault : F) (v : List String) : F :=
  let value := env.lookupLoop environ v ""
  if value = "" then dfault
  else
    match strconv_ParseFloat value with
    | none => dfault
    | some floatValue => floatValue

/-- `GetBool`: the lookup loop, then `strconv.ParseBool`. -/
def Env.GetBool (env : Env) (environ : Environ) (dfault : Bool) (v : List String) : Bool :=
  let value := env.lookupLoop environ v ""
  if value = "" then dfault
  else
    match strconv_ParseBool value with
    | .error _ => dfault
    | .ok boolValue => boolValue

/-- `GetDuration`: the lookup loop, then `time.ParseDuration`. -/
def Env.GetDuration (fracNanos : Nat → Nat → Nat → Nat)
    (env : Env) (environ : Environ) (dfault : Int) (v : List String) : Int :=
  let value := env.lookupLoop environ v ""
  if value = "" then dfault
  else
    match time_ParseDuration fracNanos value with
    | none => dfault
    | some durationValue => durationValue

/-- `GetTime`: the lookup loop, then `time.Parse(layout, value)`, which is a
parameter: `T` stands for `time.Time`.  The parser is handed the process
environment, because `time.Parse` resolves zone names through `time.Local`,
which the `time` package sets up from the variable `TZ`. -/
def Env.GetTime {T : Type} (time_Parse : Environ → String → String → Option T)
    (env : Env) (environ : Environ) (layout : String) (dfault : T) (v : List String) : T :=
  let value := env.lookupLoop environ v ""
  if value = "" then dfault
  else
    match time_Parse environ layout value with
    | none => dfault
    | some timeValue => timeValue

/-! ## Sample environment -/

/-- The environment of the examples: `EMPTY` is set to the empty string, `BAD`
to `x3`, `GOOD` to `7`, `PREFIX_TEST` to `PREFIXTESTVAL`; nothing else is set. -/
def sampleEnviron : Environ := fun k =>
  if k = "EMPTY" then some ""
  else if k = "BAD" then some "x3"
  else if k = "GOOD" then some "7"
  else if k = "PREFIX_TEST" then some "PREFIXTESTVAL"
  else none

/-! ## Decimal numerals -/

/-- The value of a character as a decimal digit, `c - '0'`. -/
def digitValue (c : Char) : Nat := c.toNat - 48

/-- The number a string of decimal digits denotes: the digits are read as the
base-10 expansion, most significant first. -/
def decimalValue (ds : List Char) : Nat :=
  Nat.ofDigits 10 (ds.map digitValue).reverse

/-- Modelled from the spec: `strconv.Itoa` of the Go standard library, not
under src/, the base-10 rendering of an integer: a minus sign when it is
negative, then its decimal digits without leading zeros.  This is how Lean
prints an integer. -/
def strconv_Itoa (n : Int) : String := toString n

/-- The accumulator of the digit loops after the digits `cs`, starting at `acc`. -/
def decAccum (cs : List Char) (acc : Nat) : Nat :=
  cs.foldl (fun a c => a * 10 + (c.toNat - 48)) acc

/-! ## Sample environment for integers -/

/-- The environment of the test `TestIntEnv`, with the smallest 64-bit integer
besides: `INTTEST` is `3` and `INTMIN` is `-9223372036854775808`. -/
def intEnviron : Environ := fun k =>
  if k = "INTTEST" then some "3"
  else if k = "INTMIN" then some "-9223372036854775808"
  else none

/-! ## Boolean tokens -/

/-- The six tokens read as `true`. -/
def trueTokens : List String := ["1", "t", "T", "TRUE", "true", "True"]

/-- The six tokens read as `false`. -/
def falseTokens : List String := ["0", "f", "F", "FALSE", "false", "False"]

/-- The environment of the test `TestBoolEnv`, with two values that are not
tokens: `BOOLTEST` is `T`, `MIXED` is `tRuE`, `YES` is `yes`, `OFF` is `False`. -/
def boolEnviron : Environ := fun k =>
  if k = "BOOLTEST" then some "T"
  else if k = "MIXED" then some "tRuE"
  else if k = "YES" then some "yes"
  else if k = "OFF" then some "False"
  else none

/-! ## Signed decimal numerals -/

/-- A string split into an optional leading sign and the rest. -/
def signAndDigits : List Char → List Char × List Char
  | [] => ([], [])
  | c :: cs => if c = '+' ∨ c = '-' then ([c], cs) else ([], c :: cs)

/-- The string is an optional sign followed by one or more decimal digits. -/
def isSignedDecimal (s : String) : Bool :=
  let ds := (signAndDigits s.toList).2
  !ds.isEmpty && ds.all Char.isDigit

/-- The integer a signed decimal string denotes. -/
def signedDecimalValue (s : String) : Int :=
  let sd := signAndDigits s.toList
  if sd.1 = ['-'] then - (decimalValue sd.2 : Int) else (decimalValue sd.2 : Int)

/-- The environment of the examples of malformed integers: `WORD` is `12a`,
`BIG` is `9223372036854775808`, one past the largest 64-bit integer, and `OK`
is `7`. -/
def malformedEnviron : Environ := fun k =>
  if k = "WORD" then some "12a"
  else if k = "BIG" then some "9223372036854775808"
  else if k = "OK" then some "7"
  else none

/-! ## Float64 arithmetic of `time.ParseDuration` -/

/-- A float64 that is not negative: the finite value `num / den` (with `den`
positive), the infinity, or not-a-number. -/
inductive F64 where
  | fin (num den : Nat)
  | inf
  | nan
deriving DecidableEq, Repr

/-- The integer nearest to `num / den`, a tie going to the even one. -/
def roundNE (num den : Nat) : Nat :=
  let q := num / den
  let r := num % den
  if 2 * r < den then q
  else if den < 2 * r then q + 1
  else if q % 2 = 0 then q
  else q + 1

/-- The position of the highest bit of `n`, by halving; the first argument
bounds the number of halvings and is taken to be `n` itself. -/
def bitLog : Nat → Nat → Nat
  | 0, _ => 0
  | fuel + 1, n => if n < 2 then 0 else bitLog fuel (n / 2) + 1

/-- The greatest `l` with `2 ^ l ≤ num / den`, for positive `num` and `den`. -/
def floorLog2 (num den : Nat) : Int :=
  let l : Int := (bitLog num num : Int) - (bitLog den den : Int)
  if 0 ≤ l then (if den * 2 ^ l.toNat ≤ num then l else l - 1)
  else (if den ≤ num * 2 ^ (-l).toNat then l else l - 1)

/-- The float64 nearest to `num / den`, a tie going to the even mantissa: 53
bits of mantissa, exponents down to that of the subnormal numbers, and the
infinity from `2 ^ 1024` on. -/
def F64.round (num den : Nat) : F64 :=
  if num = 0 then .fin 0 1
  else
    let e : Int := max (floorLog2 num den - 52) (-1074)
    if 0 ≤ e then
      let m := roundNE num (den * 2 ^ e.toNat)
      if 2 ^ 1024 ≤ m * 2 ^ e.toNat then .inf else .fin (m * 2 ^ e.toNat) 1
    else
      .fin (roundNE (num * 2 ^ (-e).toNat) den) (2 ^ (-e).toNat)

/-- The conversion `float64(n)` of an unsigned integer. -/
def F64.ofNat (n : Nat) : F64 := F64.round n 1

/-- The float64 product. -/
def F64.mul : F64 → F64 → F64
  | .fin a b, .fin c d => F64.round (a * c) (b * d)
  | .fin a _, .inf => if a = 0 then .nan else .inf
  | .inf, .fin c _ => if c = 0 then .nan else .inf
  | .inf, .inf => .inf
  | _, _ => .nan

/-- The float64 quotient. -/
def F64.div : F64 → F64 → F64
  | .fin a b, .fin c d =>
    if c = 0 then (if a = 0 then .nan else .inf) else F64.round (a * d) (b * c)
  | .fin _ _, .inf => .fin 0 1
  | .inf, .fin _ _ => .inf
  | _, _ => .nan

/-- The conversion `uint64(x)`: the integer part.  On a value that `uint64`
cannot hold Go leaves the result to the implementation; `1 << 63` is what
amd64 gives, and `time.ParseDuration` never converts such a value. -/
def F64.toUint64 : F64 → Nat
  | .fin a b => if a / b < 2 ^ 64 then a / b else 2 ^ 63
  | _ => 2 ^ 63

/-- The variable `scale` of `leadingFraction` after `k` accepted digits: it
starts at 1 and is multiplied by 10 once for each of them. -/
def float64_scale : Nat → F64
  | 0 => F64.ofNat 1
  | k + 1 => F64.mul (float64_scale k) (F64.ofNat 10)

/-- The expression `uint64(float64(f) * (float64(unit) / scale))` of
`time.ParseDuration`, with `scale` as `leadingFraction` leaves it after `k`
accepted digits. -/
def float64_fracNanos (f unit k : Nat) : Nat :=
  F64.toUint64 (F64.mul (F64.ofNat f) (F64.div (F64.ofNat unit) (float64_scale k)))

/-- A float64 that holds the whole number `n`. -/
def F64.IsNat (x : F64) (n : Nat) : Prop := ∃ b, 0 < b ∧ x = .fin (n * b) b

/-! ## Duration components -/

/-- The unit names of a duration string; the microsecond is spelled `us` or
with a micro sign (U+00B5) or a Greek mu (U+03BC). -/
def unitNames : List String := ["ns", "us", "µs", "μs", "ms", "s", "m", "h"]

/-- The length of a unit in nanoseconds: a microsecond is a thousand
nanoseconds, a millisecond a thousand microseconds, a second a thousand
milliseconds, a minute sixty seconds, an hour sixty minutes. -/
def unitNanos (u : String) : Nat :=
  if u = "ns" then 1
  else if u = "us" ∨ u = "µs" ∨ u = "μs" then 1000
  else if u = "ms" then 1000 * 1000
  else if u = "s" then 1000 * 1000 * 1000
  else if u = "m" then 60 * (1000 * 1000 * 1000)
  else if u = "h" then 60 * 60 * (1000 * 1000 * 1000)
  else 0

/-- The number of decimal places at which every multiple of the unit is a whole
number of nanoseconds: none for `ns`, 3 for the microsecond, 6 for `ms`, 9 for
`s`, 10 for `m`, 11 for `h`. -/
def unitDecimals (u : String) : Nat :=
  if u = "ns" then 0
  else if u = "us" ∨ u = "µs" ∨ u = "μs" then 3
  else if u = "ms" then 6
  else if u = "s" then 9
  else if u = "m" then 10
  else if u = "h" then 11
  else 0

/-- A component of a duration string: the digits before the period, the digits
after the period when there is a period, and the unit name. -/
structure DurationComponent where
  whole : List Char
  frac : Option (List Char)
  unit : String
deriving DecidableEq, Repr

/-- The digits after the period, none when there is no period. -/
def DurationComponent.fracDigits (p : DurationComponent) : List Char :=
  p.frac.getD []

/-- The length of time a component denotes, in nanoseconds: the decimal number
`whole.frac` times the length of the unit. -/
def componentValue (p : DurationComponent) : ℚ :=
  ((decimalValue p.whole : ℚ) + (decimalValue p.fracDigits : ℚ) / 10 ^ p.fracDigits.length)
    * (unitNanos p.unit : ℚ)

/-- The sum of the components in nanoseconds. -/
def totalValue (comps : List DurationComponent) : ℚ :=
  (comps.map componentValue).sum

/-- A component as it is written: the digits, the period and the digits after
it when there is a period, and the unit. -/
def renderComponent (p : DurationComponent) : List Char :=
  p.whole ++
    (match p.frac with
     | none => []
     | some fd => '.' :: fd) ++
    p.unit.toList

/-- The components written one after the other. -/
def renderComponents : List DurationComponent → List Char
  | [] => []
  | p :: ps => renderComponent p ++ renderComponents ps

/-- The shape asked of every component: decimal digits before and after the
period, at least one digit in all, and a unit name. -/
def wellFormedComponent (p : DurationComponent) : Prop :=
  (∀ ch ∈ p.whole, ch.isDigit = true) ∧ (∀ ch ∈ p.fracDigits, ch.isDigit = true) ∧
    (p.whole ≠ [] ∨ p.fracDigits ≠ []) ∧ p.unit ∈ unitNames

instance (p : DurationComponent) : Decidable (wellFormedComponent p) := by
  unfold wellFormedComponent; infer_instance

/-- The fraction of the component is zero, or has no more digits than the unit
has decimal places in nanoseconds: the component is then a whole number of
nanoseconds whatever its digits. -/
def wholeNanosComponent (p : DurationComponent) : Prop :=
  decimalValue p.fracDigits = 0 ∨ p.fracDigits.length ≤ unitDecimals p.unit

instance (p : DurationComponent) : Decidable (wholeNanosComponent p) := by
  unfold wholeNanosComponent; infer_instance

/-- The nanoseconds of a component counted in whole numbers: the whole part
times the unit, and the fraction times the unit divided by the power of ten of
its length. -/
def componentNanos (p : DurationComponent) : Nat :=
  decimalValue p.whole * unitNanos p.unit +
    decimalValue p.fracDigits * unitNanos p.unit / 10 ^ p.fracDigits.length

/-- The sum of the components counted in whole nanoseconds. -/
def totalNanos (comps : List DurationComponent) : Nat :=
  (comps.map componentNanos).sum

/-- The environment of the test `TestDurationEnv`, with three more durations:
`DURATIONTEST` is `3m5s`, `NEG` is `-1.5h`, `HALF` is `.5s`, and `SUB` is
`0.5ns0.5ns`. -/
def durationEnviron : Environ := fun k =>
  if k = "DURATIONTEST" then some "3m5s"
  else if k = "NEG" then some "-1.5h"
  else if k = "HALF" then some ".5s"
  else if k = "SUB" then some "0.5ns0.5ns"
  else none

/-! ## The file loader -/

/-- A Go `error` value: one made by `errors.New` in `staticenv.go`, or one
handed back by a call into `os` or `godotenv`. -/
inductive Error where
  | errorsNew (msg : String)
  | foreign (msg : String)
deriving DecidableEq, Repr

/-- The method `Error()` of an `error`: its message. -/
def Error.message : Error → String
  | .errorsNew msg => msg
  | .foreign msg => msg

/-- What `Load` and `Read` look at in an `os.FileInfo`: `IsDir()`. -/
structure FileInfo where
  isDir : Bool
deriving DecidableEq, Repr

/-- A Go `map[string]string` as a list of pairs. -/
abbrev StringMap := List (String × String)

/-- The calls `Load` and `Read` make outside the package, as far as they do not
touch the process environment: `os.Getwd()`, `path.Join(dir, name)`,
`os.Stat(p)`, and the reading and parsing of a dotenv file by `godotenv`.  An
`error` result carries the message of the error. -/
structure Host where
  os_Getwd : Except String String
  path_Join : String → String → String
  os_Stat : String → Except String FileInfo
  godotenv_readFile : String → Except String StringMap

/-- One turn of the loop of `godotenv.Load` over the parsed pairs: a variable
that was set before the call is passed over; otherwise `os.Setenv` is called
and its error is discarded (`_ = os.Setenv(key, value)`). -/
def godotenv_applyPair (currentEnv : Environ) (acc : Environ) (kv : String × String) :
    Environ :=
  if (currentEnv kv.1).isSome then acc
  else
    match os_Setenv acc kv.1 kv.2 with
    | .ok e => e
    | .error _ => acc

/-- Modelled from the spec: `godotenv.Load` belongs to the package
github.com/joho/godotenv and is not under src/.  It parses the file and applies
each pair to the process environment, not overriding a variable that is
already set; a failure to read or parse is returned and nothing is applied.
Whether a variable is already set is decided on the environment as it was
before the call, and a pair that `os.Setenv` refuses is dropped without a
failure. -/
def godotenv_Load (host : Host) (environ : Environ) (filename : String) :
    Environ × Option Error :=
  match host.godotenv_readFile filename with
  | .error msg => (environ, some (.foreign msg))
  | .ok envMap => (envMap.foldl (godotenv_applyPair environ) environ, none)

/-- Modelled from the spec: `godotenv.Read` belongs to the package
github.com/joho/godotenv and is not under src/.  It returns the parsed pairs
as a mapping and leaves the process environment as it is; on a failure it
returns the failure with an empty mapping. -/
def godotenv_Read (host : Host) (environ : Environ) (filename : String) :
    Environ × Option StringMap × Option Error :=
  match host.godotenv_readFile filename with
  | .error msg => (environ, some [], some (.foreign msg))
  | .ok envMap => (environ, some envMap, none)

/-- `Load`: the environment after the call and the returned `error`, `none`
for `nil`. -/
def Env.Load (_env : Env) (host : Host) (environ : Environ) : Environ × Option Error :=
  match host.os_Getwd with
  | .error msg => (environ, some (.foreign msg))
  | .ok curdir =>
    let p := host.path_Join curdir ".env"
    let found : Bool :=
      match host.os_Stat p with
      | .ok f => !f.isDir
      | .error _ => false
    if found then godotenv_Load host environ p
    else
      (environ, some (.errorsNew ("Could not open .env file in current directory: " ++ curdir)))

/-- `Read`: the environment after the call, the returned map, `none` for the
nil map of `var m map[string]string`, and the returned `error`. -/
def Env.Read (_env : Env) (host : Host) (environ : Environ) :
    Environ × Option StringMap × Option Error :=
  match host.os_Getwd with
  | .error msg => (environ, none, some (.foreign msg))
  | .ok curdir =>
    let p := host.path_Join curdir ".env"
    let found : Bool :=
      match host.os_Stat p with
      | .ok f => !f.isDir
      | .error _ => false
    if found then godotenv_Read host environ p
    else
      (environ, none,
        some (.errorsNew ("Could not read .env file in current directory: " ++ curdir)))

/-- A host with working directory `cwd`, on which `/app/.env` is a file with
the pairs `A=1`, `B=2`, `/srv/.env` is a directory, and no other path exists. -/
def sampleHost (cwd : String) : Host where
  os_Getwd := .ok cwd
  path_Join := fun dir name => dir ++ "/" ++ name
  os_Stat := fun p =>
    if p = "/app/.env" then .ok { isDir := false }
    else if p = "/srv/.env" then .ok { isDir := true }
    else .error ("stat " ++ p ++ ": no such file or directory")
  godotenv_readFile := fun p =>
    if p = "/app/.env" then .ok [("A", "1"), ("B", "2")]
    else .error ("open " ++ p ++ ": no such file or directory")

/-- An environment in which `A` is set to `0` and nothing else is set. -/
def loadEnviron : Environ := fun k => if k = "A" then some "0" else none

/-- The pair is one `os.Setenv` takes: a non-empty name without `=` or NUL and
a value without NUL. -/
def settable (key value : String) : Prop :=
  key ≠ "" ∧ '=' ∉ key.toList ∧ Char.ofNat 0 ∉ key.toList ∧ Char.ofNat 0 ∉ value.toList

instance (key value : String) : Decidable (settable key value) := by
  unfold settable; infer_instance

/-- A host with working directory `/app`, on which `/app/.env` is a file that
`godotenv` parses to the pairs `A=1` and `B=a\x00b`, the value of `B` holding
a NUL between `a` and `b`. -/
def nulHost : Host where
  os_Getwd := .ok "/app"
  path_Join := fun dir name => dir ++ "/" ++ name
  os_Stat := fun p =>
    if p = "/app/.env" then .ok { isDir := false }
    else .error ("stat " ++ p ++ ": no such file or directory")
  godotenv_readFile := fun p =>
    if p = "/app/.env" then .ok [("A", "1"), ("B", "a\x00b")]
    else .error ("open " ++ p ++ ": no such file or directory")

/-! ## The not-found errors -/

/-- The error `Load` makes when it finds no file. -/
def loadNotFound (curdir : String) : Error :=
  .errorsNew ("Could not open .env file in current directory: " ++ curdir)

/-- The error `Read` makes when it finds no file. -/
def readNotFound (curdir : String) : Error :=
  .errorsNew ("Could not read .env file in current directory: " ++ curdir)

/-! ## The generic resolution primitive -/

/-- The generic resolution primitive as the spec words it, parameterized by a
parse function that reports success or failure: let `s` be `Getenv("", cs)`;
the result is the default when `s` is empty, the parsed value when `s` parses,
and the default when it does not. -/
def genericResolve {α : Type} (parse : String → Option α)
    (env : Env) (environ : Environ) (dfault : α) (cs : List String) : α :=
  let s := env.Getenv environ "" cs
  if s = "" then dfault
  else
    match parse s with
    | some x => x
    | none => dfault

/-- The sample environment with one more variable, `OTHER`, set to `1`. -/
def sampleEnvironOther : Environ := fun k =>
  if k = "OTHER" then some "1" else sampleEnviron k

/-! ## Zone lookup in `time.Parse` -/

/-- Modelled from the spec: `time.Parse` of the Go standard library, not under
src/, cut down to the layout `MST`, a zone abbreviation and nothing else, and
to the zone offset of the time it returns, in seconds east of UTC.  The
zone abbreviation is looked up in `time.Local`, which is set up from the
variable `TZ`: when the local zone has the abbreviation, its offset is taken;
when it has not, the time is put in a made-up zone of offset zero.  Of the
zone database two zones are tabulated, `Europe/Berlin` (CET at 3600, CEST at
7200) and `UTC`; every other layout, abbreviation or value of `TZ` is outside
this model and reads as a parse failure. -/
def zoneParse (environ : Environ) (layout value : String) : Option Int :=
  if layout = "MST" ∧ (value = "CET" ∨ value = "CEST") then
    if environ "TZ" = some "Europe/Berlin" then some (if value = "CET" then 3600 else 7200)
    else if environ "TZ" = some "UTC" then some 0
    else none
  else none

/-- An environment in which `ZONE` is `CEST` and `TZ` is `Europe/Berlin`. -/
def berlinEnviron : Environ := fun k =>
  if k = "ZONE" then some "CEST"
  else if k = "TZ" then some "Europe/Berlin"
  else none

/-- An environment in which `ZONE` is `CEST` and `TZ` is `UTC`. -/
def utcEnviron : Environ := fun k =>
  if k = "ZONE" then some "CEST"
  else if k = "TZ" then some "UTC"
  else none

/-- The environment `berlinEnviron` with one more variable, `OTHER`, set to `1`. -/
def berlinEnvironOther : Environ := fun k =>
  if k = "OTHER" then some "1" else berlinEnviron k

/-- The components of `0.5ns0.5ns`: half a nanosecond, twice. -/
def subNanoComponents : List DurationComponent :=
  [⟨['0'], some ['5'], "ns"⟩, ⟨['0'], some ['5'], "ns"⟩]

/-! # Theorems -/

/-! ## The lookup loops -/

/-- A variable that is unset and one set to the empty string read alike. -/
theorem os_Getenv_eq_empty_iff (environ : Environ) (name : String) :
    os_Getenv environ name = "" ↔ environ name = none ∨ environ name = some "" := by
  unfold os_Getenv
  cases h : environ name with
  | none => simp
  | some v => simp

theorem os_Getenv_of_some (environ : Environ) (name val : String)
    (h : environ name = some val) : os_Getenv environ name = val := by
  simp [os_Getenv, h]

/-- Candidates reading empty are passed over by the loop of `Getenv`. -/
theorem Getenv_skip (env : Env) (environ : Environ) (d : String) (pre rest : List String)
    (h : ∀ x ∈ pre, os_Getenv environ (env.resolveName x) = "") :
    env.Getenv environ d (pre ++ rest) = env.Getenv environ d rest := by
  induction pre with
  | nil => rfl
  | cons x xs ih =>
    have hx : os_Getenv environ (env.resolveName x) = "" := h x (List.mem_cons_self _ _)
    have hxs : ∀ y ∈ xs, os_Getenv environ (env.resolveName y) = "" :=
      fun y hy => h y (List.mem_cons_of_mem _ hy)
    simp only [List.cons_append, Env.Getenv, hx, ne_eq, not_true_eq_false, if_false]
    exact ih hxs

/-- A candidate reading non-empty ends the loop of `Getenv`. -/
theorem Getenv_hit (env : Env) (environ : Environ) (d c : String) (post : List String)
    (h : os_Getenv environ (env.resolveName c) ≠ "") :
    env.Getenv environ d (c :: post) = os_Getenv environ (env.resolveName c) := by
  simp [Env.Getenv, h]

/-- Candidates reading empty are passed over by the loop of the typed getters. -/
theorem lookupLoop_skip (env : Env) (environ : Environ) (pre rest : List String)
    (h : ∀ x ∈ pre, os_Getenv environ (env.resolveName x) = "") :
    env.lookupLoop environ (pre ++ rest) "" = env.lookupLoop environ rest "" := by
  induction pre with
  | nil => rfl
  | cons x xs ih =>
    have hx : os_Getenv environ (env.resolveName x) = "" := h x (List.mem_cons_self _ _)
    have hxs : ∀ y ∈ xs, os_Getenv environ (env.resolveName y) = "" :=
      fun y hy => h y (List.mem_cons_of_mem _ hy)
    simp only [List.cons_append, Env.lookupLoop, hx, ne_eq, not_true_eq_false, if_false]
    exact ih hxs

/-- A candidate reading non-empty ends the loop of the typed getters. -/
theorem lookupLoop_hit (env : Env) (environ : Environ) (c value : String) (post : List String)
    (h : os_Getenv environ (env.resolveName c) ≠ "") :
    env.lookupLoop environ (c :: post) value = os_Getenv environ (env.resolveName c) := by
  simp [Env.lookupLoop, h]

/-- When every candidate reads empty, `value` is empty after the loop. -/
theorem lookupLoop_none (env : Env) (environ : Environ) (v : List String)
    (h : ∀ x ∈ v, os_Getenv environ (env.resolveName x) = "") :
    env.lookupLoop environ v "" = "" := by
  have := lookupLoop_skip env environ v [] h
  simpa [Env.lookupLoop] using this

/-- The loop of the typed getters stops at the first candidate that reads
non-empty. -/
theorem lookupLoop_first (env : Env) (environ : Environ) (pre post : List String)
    (c val : String)
    (hpre : ∀ x ∈ pre, environ (env.resolveName x) = none ∨ environ (env.resolveName x) = some "")
    (hc : environ (env.resolveName c) = some val) (hval : val ≠ "") :
    env.lookupLoop environ (pre ++ c :: post) "" = val := by
  have h1 : ∀ x ∈ pre, os_Getenv environ (env.resolveName x) = "" :=
    fun x hx => (os_Getenv_eq_empty_iff _ _).2 (hpre x hx)
  have h2 : os_Getenv environ (env.resolveName c) = val := os_Getenv_of_some _ _ _ hc
  rw [lookupLoop_skip env environ pre (c :: post) h1, lookupLoop_hit, h2]
  rw [h2]; exact hval

/-! ## C1: the default when nothing resolves -/

/-- C1: for each of the six getters, any prefix, environment, default and
candidate list (the empty one included), if no candidate's resolved name has a
non-empty value in the environment then the getter returns the default. -/
theorem getters_default_when_unresolved {F T : Type}
    (strconv_ParseFloat : String → Option F) (time_Parse : Environ → String → String → Option T)
    (fracNanos : Nat → Nat → Nat → Nat)
    (env : Env) (environ : Environ) (v : List String)
    (h : ∀ c ∈ v, environ (env.resolveName c) = none ∨ environ (env.resolveName c) = some "") :
    (∀ d : String, env.Getenv environ d v = d) ∧
    (∀ d : Int, env.GetInt environ d v = d) ∧
    (∀ d : F, env.GetFloat strconv_ParseFloat environ d v = d) ∧
    (∀ d : Bool, env.GetBool environ d v = d) ∧
    (∀ d : Int, env.GetDuration fracNanos environ d v = d) ∧
    (∀ (layout : String) (d : T), env.GetTime time_Parse environ layout d v = d) := by
  have h1 : ∀ x ∈ v, os_Getenv environ (env.resolveName x) = "" :=
    fun x hx => (os_Getenv_eq_empty_iff _ _).2 (h x hx)
  have hl := lookupLoop_none env environ v h1
  refine ⟨?_, ?_, ?_, ?_, ?_, ?_⟩
  · intro d
    have := Getenv_skip env environ d v [] h1
    simpa [Env.Getenv] using this
  · intro d; simp [Env.GetInt, hl]
  · intro d; simp [Env.GetFloat, hl]
  · intro d; simp [Env.GetBool, hl]
  · intro d; simp [Env.GetDuration, hl]
  · intro layout d; simp [Env.GetTime, hl]

/-- C1 at an unset and an empty candidate: `GetInt` gives back the default 1. -/
theorem getters_default_when_unresolved_witness :
    NewEnv.GetInt sampleEnviron 1 ["UNLIKELYTOEXIST", "EMPTY"] = 1 :=
  (getters_default_when_unresolved (fun _ : String => (none : Option Nat))
    (fun (_ : Environ) (_ _ : String) => (none : Option Nat)) (fun _ _ _ => 0)
    NewEnv sampleEnviron ["UNLIKELYTOEXIST", "EMPTY"] (by decide)).2.1 1

/-! ## C2: the first non-empty candidate wins -/

/-- C2: when the candidates before `c` are unset or set to the empty string and
`c` resolves to the non-empty value `val`, `Getenv` returns `val` unchanged,
whatever the later candidates `post` resolve to. -/
theorem Getenv_first_nonempty (env : Env) (environ : Environ) (d : String)
    (pre post : List String) (c val : String)
    (hpre : ∀ x ∈ pre, environ (env.resolveName x) = none ∨ environ (env.resolveName x) = some "")
    (hc : environ (env.resolveName c) = some val) (hval : val ≠ "") :
    env.Getenv environ d (pre ++ c :: post) = val := by
  have h1 : ∀ x ∈ pre, os_Getenv environ (env.resolveName x) = "" :=
    fun x hx => (os_Getenv_eq_empty_iff _ _).2 (hpre x hx)
  have h2 : os_Getenv environ (env.resolveName c) = val := os_Getenv_of_some _ _ _ hc
  rw [Getenv_skip env environ d pre (c :: post) h1, Getenv_hit, h2]
  rw [h2]; exact hval

/-- C2 at an unset candidate, an empty one, and two that resolve: the first of
the two is returned. -/
theorem Getenv_first_nonempty_witness :
    NewEnv.Getenv sampleEnviron "DEFAULT" ["UNLIKELYTOEXIST", "EMPTY", "BAD", "GOOD"] = "x3" :=
  Getenv_first_nonempty NewEnv sampleEnviron "DEFAULT" ["UNLIKELYTOEXIST", "EMPTY"] ["GOOD"]
    "BAD" "x3" (by decide) (by decide) (by decide)

/-! ## C3: prefixing -/

theorem resolveName_of_prefix (env : Env) (c : String) (h : env.Prefix ≠ "") :
    env.resolveName c = env.Prefix ++ "_" ++ c := by
  simp [Env.resolveName, h]

theorem resolveName_of_no_prefix (env : Env) (c : String) (h : env.Prefix = "") :
    env.resolveName c = c := by
  simp [Env.resolveName, h]

/-- With a non-empty prefix, `Getenv` reads what an accessor without prefix
reads on the prefixed candidates. -/
theorem Getenv_prefix_map (env : Env) (environ : Environ) (d : String) (cs : List String)
    (h : env.Prefix ≠ "") :
    env.Getenv environ d cs =
      NewEnv.Getenv environ d (cs.map (fun c => env.Prefix ++ "_" ++ c)) := by
  induction cs with
  | nil => rfl
  | cons c rest ih =>
    simp only [List.map_cons, Env.Getenv, resolveName_of_prefix env c h,
      resolveName_of_no_prefix NewEnv _ rfl, ih]

/-- C3: for a non-empty prefix `P`, set by `NewEnvWithPrefix` or by `SetPrefix`,
the name looked up for a candidate `c` is `P_c`, and `Getenv` on that accessor
equals `Getenv` on the candidates `P_c1 .. P_cn` with an empty prefix; with an
empty prefix the name looked up is `c` itself. -/
theorem prefixing (P : String) (hP : P ≠ "") (e0 : Env) (environ : Environ) (d c : String)
    (cs : List String) :
    (NewEnvWithPrefix P).resolveName c = P ++ "_" ++ c ∧
    (e0.SetPrefix P).resolveName c = P ++ "_" ++ c ∧
    (NewEnvWithPrefix P).Getenv environ d cs =
      NewEnv.Getenv environ d (cs.map (fun x => P ++ "_" ++ x)) ∧
    (e0.SetPrefix P).Getenv environ d cs =
      NewEnv.Getenv environ d (cs.map (fun x => P ++ "_" ++ x)) ∧
    NewEnv.resolveName c = c ∧
    (NewEnvWithPrefix "").resolveName c = c ∧
    (e0.SetPrefix "").resolveName c = c := by
  refine ⟨?_, ?_, ?_, ?_, ?_, ?_, ?_⟩
  · exact resolveName_of_prefix (NewEnvWithPrefix P) c hP
  · exact resolveName_of_prefix (e0.SetPrefix P) c hP
  · exact Getenv_prefix_map (NewEnvWithPrefix P) environ d cs hP
  · exact Getenv_prefix_map (e0.SetPrefix P) environ d cs hP
  · exact resolveName_of_no_prefix NewEnv c rfl
  · exact resolveName_of_no_prefix (NewEnvWithPrefix "") c rfl
  · exact resolveName_of_no_prefix (e0.SetPrefix "") c rfl

/-- C3 on the prefix of the tests: `TEST` under `PREFIX` is looked up as
`PREFIX_TEST`. -/
theorem prefixing_witness :
    (NewEnvWithPrefix "PREFIX").resolveName "TEST" = "PREFIX_TEST" ∧
    (NewEnvWithPrefix "PREFIX").Getenv sampleEnviron "DEFAULT" ["TEST"] = "PREFIXTESTVAL" := by
  have h := prefixing "PREFIX" (by decide) NewEnv sampleEnviron "DEFAULT" "TEST" ["TEST"]
  exact ⟨h.1.trans (by decide), h.2.2.1.trans (by decide)⟩

/-! ## C4: the typed getters parse the first non-empty candidate only -/

/-- C4: for each typed getter, when the candidates before `c` read empty and
`c` resolves to the non-empty value `s`, the string parsed is `s`: the getter
returns the default when `s` fails to parse and the parsed value when it
parses, whatever the later candidates `post` hold. -/
theorem typed_getters_parse_first {F T : Type}
    (strconv_ParseFloat : String → Option F) (time_Parse : Environ → String → String → Option T)
    (fracNanos : Nat → Nat → Nat → Nat)
    (env : Env) (environ : Environ) (pre post : List String) (c s : String)
    (hpre : ∀ x ∈ pre, environ (env.resolveName x) = none ∨ environ (env.resolveName x) = some "")
    (hc : environ (env.resolveName c) = some s) (hs : s ≠ "") :
    (∀ d : Int, env.GetInt environ d (pre ++ c :: post) =
      match strconv_Atoi s with
      | .error _ => d
      | .ok n => n) ∧
    (∀ d : F, env.GetFloat strconv_ParseFloat environ d (pre ++ c :: post) =
      match strconv_ParseFloat s with
      | none => d
      | some x => x) ∧
    (∀ d : Bool, env.GetBool environ d (pre ++ c :: post) =
      match strconv_ParseBool s with
      | .error _ => d
      | .ok b => b) ∧
    (∀ d : Int, env.GetDuration fracNanos environ d (pre ++ c :: post) =
      match time_ParseDuration fracNanos s with
      | none => d
      | some x => x) ∧
    (∀ (layout : String) (d : T), env.GetTime time_Parse environ layout d (pre ++ c :: post) =
      match time_Parse environ layout s with
      | none => d
      | some x => x) := by
  have hl := lookupLoop_first env environ pre post c s hpre hc hs
  refine ⟨?_, ?_, ?_, ?_, ?_⟩
  · intro d; simp only [Env.GetInt, hl, if_neg hs]
  · intro d; simp only [Env.GetFloat, hl, if_neg hs]
  · intro d; simp only [Env.GetBool, hl, if_neg hs]
  · intro d; simp only [Env.GetDuration, hl, if_neg hs]
  · intro layout d; simp only [Env.GetTime, hl, if_neg hs]

/-- C4 where the first non-empty candidate holds `x3` and a later one holds `7`:
`GetInt` returns the default 1, not 7. -/
theorem typed_getters_parse_first_witness :
    NewEnv.GetInt sampleEnviron 1 ["EMPTY", "BAD", "GOOD"] = 1 :=
  ((typed_getters_parse_first (fun _ : String => (none : Option Nat))
    (fun (_ : Environ) (_ _ : String) => (none : Option Nat)) (fun _ _ _ => 0)
    NewEnv sampleEnviron ["EMPTY"] ["GOOD"] "BAD" "x3"
    (by decide) (by decide) (by decide)).1 1).trans (by decide)

/-! ## Decimal numerals -/

theorem decAccum_cons (c : Char) (cs : List Char) (acc : Nat) :
    decAccum (c :: cs) acc = decAccum cs (acc * 10 + (c.toNat - 48)) := rfl

theorem decAccum_append (xs ys : List Char) (acc : Nat) :
    decAccum (xs ++ ys) acc = decAccum ys (decAccum xs acc) := by
  simp [decAccum, List.foldl_append]

theorem le_decAccum (cs : List Char) (acc : Nat) : acc ≤ decAccum cs acc := by
  induction cs generalizing acc with
  | nil => exact le_refl _
  | cons c cs ih =>
    rw [decAccum_cons]
    exact le_trans (by omega) (ih _)

theorem decAccum_eq (cs : List Char) (acc : Nat) :
    decAccum cs acc = acc * 10 ^ cs.length + decimalValue cs := by
  induction cs generalizing acc with
  | nil => simp [decAccum, decimalValue]
  | cons c cs ih =>
    rw [decAccum_cons, ih]
    simp only [decimalValue, List.map_cons, List.reverse_cons, Nat.ofDigits_append,
      Nat.ofDigits_singleton, List.length_reverse, List.length_map, List.length_cons, digitValue]
    ring

theorem decAccum_zero (cs : List Char) : decAccum cs 0 = decimalValue cs := by
  rw [decAccum_eq]; simp

/-- On decimal digits the loop of `ParseUint` returns the number they denote,
or a range error when that number does not fit 64 bits. -/
theorem parseUintLoop_digits (cs : List Char) (acc : Nat) (h : ∀ c ∈ cs, c.isDigit = true)
    (hacc : acc ≤ 2 ^ 64 - 1) :
    parseUintLoop cs acc =
      if decAccum cs acc ≤ 2 ^ 64 - 1 then .ok (decAccum cs acc) else .error .range := by
  induction cs generalizing acc with
  | nil =>
    have hacc2 : acc ≤ 18446744073709551615 := by omega
    simp [parseUintLoop, decAccum, hacc2]
  | cons c cs ih =>
    have hc : c.isDigit = true := h c (List.mem_cons_self _ _)
    have hcs : ∀ x ∈ cs, x.isDigit = true := fun x hx => h x (List.mem_cons_of_mem _ hx)
    have hmono := le_decAccum cs (acc * 10 + (c.toNat - 48))
    rw [decAccum_cons]
    simp only [parseUintLoop, hc, not_true_eq_false, if_false]
    by_cases h1 : acc ≥ (2 ^ 64 - 1) / 10 + 1
    · rw [if_pos h1, if_neg]; omega
    · rw [if_neg h1]
      by_cases h2 : acc * 10 + (c.toNat - 48) > 2 ^ 64 - 1
      · rw [if_pos h2, if_neg]; omega
      · rw [if_neg h2]; exact ih _ hcs (by omega)

/-- The loop of `ParseUint` succeeds on decimal digits only. -/
theorem parseUintLoop_ok_digits (cs : List Char) (acc u : Nat)
    (h : parseUintLoop cs acc = .ok u) : ∀ c ∈ cs, c.isDigit = true := by
  induction cs generalizing acc with
  | nil => intro c hc; cases hc
  | cons c cs ih =>
    simp only [parseUintLoop] at h
    by_cases hc : c.isDigit = true
    · simp only [hc, not_true_eq_false, if_false] at h
      split at h
      · cases h
      · split at h
        · cases h
        · intro x hx
          rcases List.mem_cons.1 hx with rfl | hx
          · exact hc
          · exact ih _ h x hx
    · simp [hc] at h

/-- What `ParseUint` returns on a non-empty string of decimal digits. -/
theorem strconv_ParseUint_digits (ds : List Char) (hne : ds ≠ [])
    (h : ∀ c ∈ ds, c.isDigit = true) :
    strconv_ParseUint ds =
      if decimalValue ds ≤ 2 ^ 64 - 1 then .ok (decimalValue ds) else .error .range := by
  rw [strconv_ParseUint, if_neg hne, parseUintLoop_digits ds 0 h (by omega), decAccum_zero]

/-- A decimal digit is neither sign. -/
theorem isDigit_not_sign (c : Char) (h : c.isDigit = true) : c ≠ '+' ∧ c ≠ '-' := by
  constructor <;> (rintro rfl; revert h; decide)

theorem signedCutoff_digits (neg : Bool) (v : Nat) :
    signedCutoff neg (if v ≤ 2 ^ 64 - 1 then .ok v else .error .range) =
      if neg = true then
        (if v ≤ 2 ^ 63 then .ok (- (v : Int)) else .error .range)
      else
        (if v < 2 ^ 63 then .ok (v : Int) else .error .range) := by
  by_cases hv : v ≤ 2 ^ 64 - 1
  · rw [if_pos hv]
    cases neg <;> simp only [signedCutoff] <;> simp <;> split_ifs <;> first | rfl | omega
  · rw [if_neg hv]
    cases neg <;> simp only [signedCutoff] <;> simp <;> split_ifs <;> first | rfl | omega

/-- What `ParseInt` returns on an optional sign followed by a non-empty string
of decimal digits: the signed number when it fits the signed 64-bit range, a
range error otherwise. -/
theorem strconv_ParseInt_signed_digits (sign ds : List Char)
    (hsign : sign = [] ∨ sign = ['+'] ∨ sign = ['-'])
    (hne : ds ≠ []) (h : ∀ c ∈ ds, c.isDigit = true) :
    strconv_ParseInt (sign ++ ds) =
      if sign = ['-'] then
        (if decimalValue ds ≤ 2 ^ 63 then .ok (- (decimalValue ds : Int)) else .error .range)
      else
        (if decimalValue ds < 2 ^ 63 then .ok (decimalValue ds : Int) else .error .range) := by
  have hU := strconv_ParseUint_digits ds hne h
  rcases hsign with rfl | rfl | rfl
  · obtain ⟨c, cs, rfl⟩ := List.exists_cons_of_ne_nil hne
    have hc := isDigit_not_sign c (h c (List.mem_cons_self _ _))
    have e : strconv_ParseInt ([] ++ c :: cs) =
        signedCutoff false (strconv_ParseUint (c :: cs)) := by
      simp [strconv_ParseInt, hc.1, hc.2]
    rw [e, hU, signedCutoff_digits]
    simp
  · have e : strconv_ParseInt (['+'] ++ ds) = signedCutoff false (strconv_ParseUint ds) := by
      simp [strconv_ParseInt]
    rw [e, hU, signedCutoff_digits]
    simp
  · have e : strconv_ParseInt (['-'] ++ ds) = signedCutoff true (strconv_ParseUint ds) := by
      simp [strconv_ParseInt]
    rw [e, hU, signedCutoff_digits]
    simp

theorem digitChar_isDigit (k : Nat) (hk : k < 10) :
    (Nat.digitChar k).isDigit = true ∧ (Nat.digitChar k).toNat - 48 = k := by
  interval_cases k <;> decide

/-- The digits Lean prints for `n` are decimal digits that denote `n`. -/
theorem toDigitsCore_spec (fuel n : Nat) (ds : List Char) (h : n < fuel) :
    ∃ pre : List Char, pre ≠ [] ∧ (∀ c ∈ pre, c.isDigit = true) ∧ decAccum pre 0 = n ∧
      Nat.toDigitsCore 10 fuel n ds = pre ++ ds := by
  induction fuel generalizing n ds with
  | zero => omega
  | succ fuel ih =>
    have hd := digitChar_isDigit (n % 10) (Nat.mod_lt _ (by decide))
    by_cases h0 : n / 10 = 0
    · refine ⟨[Nat.digitChar (n % 10)], by simp, ?_, ?_, ?_⟩
      · intro c hc
        rw [List.mem_singleton.1 hc]; exact hd.1
      · simp only [decAccum, List.foldl_cons, List.foldl_nil, hd.2]; omega
      · simp [Nat.toDigitsCore, h0]
    · obtain ⟨pre, _, hdig, hval, heq⟩ :=
        ih (n / 10) (Nat.digitChar (n % 10) :: ds) (by omega)
      refine ⟨pre ++ [Nat.digitChar (n % 10)], by simp, ?_, ?_, ?_⟩
      · intro c hc
        rcases List.mem_append.1 hc with hc | hc
        · exact hdig c hc
        · rw [List.mem_singleton.1 hc]; exact hd.1
      · rw [decAccum_append, hval]
        simp only [decAccum, List.foldl_cons, List.foldl_nil, hd.2]; omega
      · simp only [Nat.toDigitsCore, h0, if_false, heq, List.append_assoc, List.singleton_append]

theorem toDigits_spec (n : Nat) :
    (Nat.toDigits 10 n) ≠ [] ∧ (∀ c ∈ Nat.toDigits 10 n, c.isDigit = true) ∧
      decimalValue (Nat.toDigits 10 n) = n := by
  obtain ⟨pre, hne, hdig, hval, heq⟩ := toDigitsCore_spec (n + 1) n [] (by omega)
  have e : Nat.toDigits 10 n = pre := by simpa [Nat.toDigits] using heq
  rw [e, ← decAccum_zero]
  exact ⟨hne, hdig, hval⟩

/-- `Atoi` reads back what `Itoa` writes, for every signed 64-bit integer. -/
theorem strconv_Atoi_Itoa (n : Int) (hlo : -2 ^ 63 ≤ n) (hhi : n < 2 ^ 63) :
    strconv_Atoi (strconv_Itoa n) = .ok n := by
  cases n with
  | ofNat m =>
    obtain ⟨hne, hdig, hval⟩ := toDigits_spec m
    have e : (strconv_Itoa (Int.ofNat m)).toList = [] ++ Nat.toDigits 10 m := rfl
    rw [strconv_Atoi, e, strconv_ParseInt_signed_digits [] _ (Or.inl rfl) hne hdig, hval]
    have hm : m < 2 ^ 63 := by
      have : (m : Int) < 2 ^ 63 := hhi
      exact_mod_cast this
    rw [if_neg (by decide), if_pos hm]; rfl
  | negSucc m =>
    obtain ⟨hne, hdig, hval⟩ := toDigits_spec (m + 1)
    have e : (strconv_Itoa (Int.negSucc m)).toList = ['-'] ++ Nat.toDigits 10 (m + 1) := rfl
    rw [strconv_Atoi, e, strconv_ParseInt_signed_digits ['-'] _ (Or.inr (Or.inr rfl)) hne hdig,
      hval]
    have hm : m + 1 ≤ 2 ^ 63 := by
      have h1 : -(2 : Int) ^ 63 ≤ Int.negSucc m := hlo
      rw [Int.negSucc_eq] at h1
      have h2 : ((m : Int) + 1) ≤ 2 ^ 63 := by linarith
      exact_mod_cast h2
    simp only [if_true, if_pos hm]
    rw [Int.negSucc_eq]; push_cast; rfl

theorem strconv_Itoa_ne_empty (n : Int) : strconv_Itoa n ≠ "" := by
  intro h
  have h2 : (strconv_Itoa n).toList = [] := by rw [h]; rfl
  cases n with
  | ofNat m =>
    have e : (strconv_Itoa (Int.ofNat m)).toList = Nat.toDigits 10 m := rfl
    exact (toDigits_spec m).1 (e ▸ h2)
  | negSucc m =>
    have e : (strconv_Itoa (Int.negSucc m)).toList = '-' :: Nat.toDigits 10 (m + 1) := rfl
    rw [e] at h2; cases h2

/-! ## C5: integer round trip -/

/-- C5: for every signed 64-bit integer `n` and every default, when the first
candidate that reads non-empty holds the base-10 rendering of `n`, `GetInt`
returns `n`. -/
theorem GetInt_round_trip (env : Env) (environ : Environ) (d n : Int)
    (pre post : List String) (c : String)
    (hpre : ∀ x ∈ pre, environ (env.resolveName x) = none ∨ environ (env.resolveName x) = some "")
    (hc : environ (env.resolveName c) = some (strconv_Itoa n))
    (hlo : -2 ^ 63 ≤ n) (hhi : n < 2 ^ 63) :
    env.GetInt environ d (pre ++ c :: post) = n := by
  have hl := lookupLoop_first env environ pre post c _ hpre hc (strconv_Itoa_ne_empty n)
  simp only [Env.GetInt, hl, if_neg (strconv_Itoa_ne_empty n), strconv_Atoi_Itoa n hlo hhi]

/-- C5 at the smallest 64-bit integer, behind an unset candidate. -/
theorem GetInt_round_trip_witness :
    NewEnv.GetInt intEnviron 1 ["UNLIKELYTOEXIST", "INTMIN", "INTTEST"]
      = -9223372036854775808 :=
  GetInt_round_trip NewEnv intEnviron 1 (-9223372036854775808) ["UNLIKELYTOEXIST"] ["INTTEST"]
    "INTMIN" (by decide) (by decide) (by decide) (by decide)

/-! ## C6: the twelve tokens of `GetBool` -/

theorem strconv_ParseBool_true (s : String) (h : s ∈ trueTokens) :
    strconv_ParseBool s = .ok true := by
  simp only [trueTokens, List.mem_cons, List.mem_singleton, List.not_mem_nil, or_false] at h
  rcases h with rfl | rfl | rfl | rfl | rfl | rfl <;> decide

theorem strconv_ParseBool_false (s : String) (h : s ∈ falseTokens) :
    strconv_ParseBool s = .ok false := by
  simp only [falseTokens, List.mem_cons, List.mem_singleton, List.not_mem_nil, or_false] at h
  rcases h with rfl | rfl | rfl | rfl | rfl | rfl <;> decide

theorem strconv_ParseBool_other (s : String) (ht : s ∉ trueTokens) (hf : s ∉ falseTokens) :
    strconv_ParseBool s = .error .invalid := by
  simp only [trueTokens, falseTokens, List.mem_cons, List.mem_singleton, List.not_mem_nil,
    or_false] at ht hf
  unfold strconv_ParseBool
  rw [if_neg (by tauto), if_neg (by tauto)]

/-- C6: when the candidates before `c` read empty and `c` resolves to the
non-empty value `s`, `GetBool` returns true for the six tokens 1, t, T, TRUE,
true, True, false for the six tokens 0, f, F, FALSE, false, False, and the
default for every other `s`; the comparison is case-sensitive. -/
theorem GetBool_tokens (env : Env) (environ : Environ) (d : Bool)
    (pre post : List String) (c s : String)
    (hpre : ∀ x ∈ pre, environ (env.resolveName x) = none ∨ environ (env.resolveName x) = some "")
    (hc : environ (env.resolveName c) = some s) (hs : s ≠ "") :
    (s ∈ trueTokens → env.GetBool environ d (pre ++ c :: post) = true) ∧
    (s ∈ falseTokens → env.GetBool environ d (pre ++ c :: post) = false) ∧
    (s ∉ trueTokens → s ∉ falseTokens → env.GetBool environ d (pre ++ c :: post) = d) := by
  have hl := lookupLoop_first env environ pre post c s hpre hc hs
  refine ⟨?_, ?_, ?_⟩
  · intro h
    simp only [Env.GetBool, hl, if_neg hs, strconv_ParseBool_true s h]
  · intro h
    simp only [Env.GetBool, hl, if_neg hs, strconv_ParseBool_false s h]
  · intro ht hf
    simp only [Env.GetBool, hl, if_neg hs, strconv_ParseBool_other s ht hf]

/-- C6 at `tRuE`, which is not a token: the default comes back although the
next candidate holds `T`. -/
theorem GetBool_tokens_witness :
    NewEnv.GetBool boolEnviron false ["UNLIKELYTOEXIST", "MIXED", "BOOLTEST"] = false :=
  (GetBool_tokens NewEnv boolEnviron false ["UNLIKELYTOEXIST"] ["BOOLTEST"] "MIXED" "tRuE"
    (by decide) (by decide) (by decide)).2.2 (by decide) (by decide)

/-! ## C7: `GetInt` on malformed values -/

theorem signAndDigits_append (s : List Char) :
    s = (signAndDigits s).1 ++ (signAndDigits s).2 ∧
    ((signAndDigits s).1 = [] ∨ (signAndDigits s).1 = ['+'] ∨ (signAndDigits s).1 = ['-']) := by
  cases s with
  | nil => exact ⟨rfl, Or.inl rfl⟩
  | cons c cs =>
    by_cases h : c = '+' ∨ c = '-'
    · simp only [signAndDigits, if_pos h, List.singleton_append, true_and]
      rcases h with rfl | rfl
      · exact Or.inr (Or.inl rfl)
      · exact Or.inr (Or.inr rfl)
    · simp [signAndDigits, if_neg h]

theorem signedCutoff_ok (neg : Bool) (r : Except NumError Nat) (n : Int)
    (h : signedCutoff neg r = .ok n) : ∃ u, r = .ok u := by
  cases r with
  | error e => cases e <;> simp [signedCutoff] at h
  | ok u => exact ⟨u, rfl⟩

/-- `ParseInt` succeeds only on an optional sign followed by one or more
decimal digits. -/
theorem strconv_ParseInt_ok_signed (s : String) (n : Int)
    (h : strconv_ParseInt s.toList = .ok n) : isSignedDecimal s = true := by
  have key : ∀ l : List Char, strconv_ParseInt l = .ok n →
      (signAndDigits l).2 ≠ [] ∧ ∀ c ∈ (signAndDigits l).2, c.isDigit = true := by
    intro l hl
    cases l with
    | nil => simp [strconv_ParseInt] at hl
    | cons c cs =>
      simp only [strconv_ParseInt] at hl
      obtain ⟨u, hu⟩ := signedCutoff_ok _ _ _ hl
      have hbody : (signAndDigits (c :: cs)).2 = if c = '+' ∨ c = '-' then cs else c :: cs := by
        by_cases hc : c = '+' ∨ c = '-' <;> simp [signAndDigits, hc]
      rw [hbody]
      generalize (if c = '+' ∨ c = '-' then cs else c :: cs) = body at hu
      unfold strconv_ParseUint at hu
      by_cases hne : body = []
      · rw [if_pos hne] at hu; cases hu
      · rw [if_neg hne] at hu
        exact ⟨hne, parseUintLoop_ok_digits _ 0 u hu⟩
  obtain ⟨hne, hd⟩ := key s.toList h
  simp only [isSignedDecimal, Bool.and_eq_true, Bool.not_eq_true', List.all_eq_true]
  exact ⟨by simpa [List.isEmpty_iff] using hne, hd⟩

/-- `Atoi` fails on every string that is not a signed decimal numeral, and on
every signed decimal numeral whose value is outside the signed 64-bit range. -/
theorem strconv_Atoi_malformed (s : String)
    (h : isSignedDecimal s = false ∨ signedDecimalValue s < -2 ^ 63 ∨
      2 ^ 63 ≤ signedDecimalValue s) :
    ∃ e, strconv_Atoi s = .error e := by
  by_cases hw : isSignedDecimal s = true
  · have hv : signedDecimalValue s < -2 ^ 63 ∨ 2 ^ 63 ≤ signedDecimalValue s := by
      rcases h with h | h
      · rw [hw] at h; cases h
      · exact h
    simp only [isSignedDecimal, Bool.and_eq_true, Bool.not_eq_true', List.all_eq_true] at hw
    obtain ⟨hne, hd⟩ := hw
    have hne2 : (signAndDigits s.toList).2 ≠ [] := by
      intro h0; rw [h0] at hne; cases hne
    obtain ⟨happ, hsign⟩ := signAndDigits_append s.toList
    have hp := strconv_ParseInt_signed_digits _ _ hsign hne2 hd
    rw [← happ] at hp
    unfold strconv_Atoi
    rw [hp]
    unfold signedDecimalValue at hv
    by_cases hm : (signAndDigits s.toList).1 = ['-']
    · simp only [hm, if_true] at hv ⊢
      have hgt : ¬ decimalValue (signAndDigits s.toList).2 ≤ 2 ^ 63 := by
        intro hle
        have : ((decimalValue (signAndDigits s.toList).2 : Nat) : Int) ≤ 2 ^ 63 := by
          exact_mod_cast hle
        rcases hv with hv | hv <;> omega
      rw [if_neg hgt]; exact ⟨_, rfl⟩
    · simp only [hm, if_false] at hv ⊢
      have hgt : ¬ decimalValue (signAndDigits s.toList).2 < 2 ^ 63 := by
        intro hlt
        have : ((decimalValue (signAndDigits s.toList).2 : Nat) : Int) < 2 ^ 63 := by
          exact_mod_cast hlt
        rcases hv with hv | hv <;> omega
      rw [if_neg hgt]; exact ⟨_, rfl⟩
  · cases hr : strconv_Atoi s with
    | error e => exact ⟨e, rfl⟩
    | ok n => exact absurd (strconv_ParseInt_ok_signed s n hr) hw

/-- C7: when the candidates before `c` read empty and `c` resolves to the
non-empty value `s`, and `s` is not an optional sign followed by one or more
decimal digits, or is one whose number lies outside the signed 64-bit range,
`GetInt` returns the default. -/
theorem GetInt_malformed (env : Env) (environ : Environ) (d : Int)
    (pre post : List String) (c s : String)
    (hpre : ∀ x ∈ pre, environ (env.resolveName x) = none ∨ environ (env.resolveName x) = some "")
    (hc : environ (env.resolveName c) = some s) (hs : s ≠ "")
    (hbad : isSignedDecimal s = false ∨ signedDecimalValue s < -2 ^ 63 ∨
      2 ^ 63 ≤ signedDecimalValue s) :
    env.GetInt environ d (pre ++ c :: post) = d := by
  have hl := lookupLoop_first env environ pre post c s hpre hc hs
  obtain ⟨e, he⟩ := strconv_Atoi_malformed s hbad
  simp only [Env.GetInt, hl, if_neg hs, he]

/-- C7 at a non-numeric value and at an overflowing one: the default 1 comes
back in both cases, although a later candidate holds `7`. -/
theorem GetInt_malformed_witness :
    NewEnv.GetInt malformedEnviron 1 ["WORD", "OK"] = 1 ∧
    NewEnv.GetInt malformedEnviron 1 ["UNLIKELYTOEXIST", "BIG", "OK"] = 1 :=
  ⟨GetInt_malformed NewEnv malformedEnviron 1 [] ["OK"] "WORD" "12a"
      (by decide) (by decide) (by decide) (Or.inl (by decide)),
   GetInt_malformed NewEnv malformedEnviron 1 ["UNLIKELYTOEXIST"] ["OK"] "BIG"
      "9223372036854775808" (by decide) (by decide) (by decide)
      (Or.inr (Or.inr (by decide)))⟩

/-! ## C8: `GetDuration` sums its components -/

theorem isDigit_not_unitChar (c : Char) (h : c.isDigit = true) : isUnitChar c = false := by
  simp [isUnitChar, h]

theorem unitChar_not_isDigit (c : Char) (h : isUnitChar c = true) : c.isDigit = false := by
  cases hd : c.isDigit with
  | false => rfl
  | true => simp [isUnitChar, hd] at h

/-- On decimal digits followed by something that is not a digit, `leadingInt`
returns the number the digits denote and leaves the rest. -/
theorem leadingInt_digits (ds tail : List Char) (acc : Nat)
    (hd : ∀ c ∈ ds, c.isDigit = true)
    (ht : ∀ c t, tail = c :: t → c.isDigit = false)
    (hfit : decAccum ds acc ≤ 2 ^ 63) :
    leadingInt (ds ++ tail) acc = some (decAccum ds acc, tail) := by
  induction ds generalizing acc with
  | nil =>
    cases tail with
    | nil => rfl
    | cons c t => simp [leadingInt, decAccum, ht c t rfl]
  | cons c cs ih =>
    have hc : c.isDigit = true := hd c (List.mem_cons_self _ _)
    have hcs : ∀ x ∈ cs, x.isDigit = true := fun x hx => hd x (List.mem_cons_of_mem _ hx)
    rw [decAccum_cons] at hfit ⊢
    have hmono := le_decAccum cs (acc * 10 + (c.toNat - 48))
    have h1 : ¬ acc > 2 ^ 63 / 10 := by omega
    have h2 : ¬ acc * 10 + (c.toNat - 48) > 2 ^ 63 := by omega
    simp only [List.cons_append, leadingInt, hc, not_true_eq_false, if_false, if_neg h1, if_neg h2]
    exact ih _ hcs hfit

/-- The scan of a unit stops where the unit characters stop. -/
theorem span_isUnitChar (u rest : List Char) (hu : ∀ c ∈ u, isUnitChar c = true)
    (hr : ∀ c t, rest = c :: t → isUnitChar c = false) :
    (u ++ rest).span isUnitChar = (u, rest) := by
  rw [List.span_eq_take_drop]
  induction u with
  | nil =>
    cases rest with
    | nil => rfl
    | cons c t => simp [List.takeWhile, List.dropWhile, hr c t rfl]
  | cons c cs ih =>
    have hc : isUnitChar c = true := hu c (List.mem_cons_self _ _)
    have hcs : ∀ x ∈ cs, isUnitChar x = true := fun x hx => hu x (List.mem_cons_of_mem _ hx)
    have := ih hcs
    simp only [Prod.mk.injEq] at this
    simp [List.takeWhile, List.dropWhile, hc, this.1, this.2]

/-- A unit name is a non-empty string of unit characters found in `unitMap`. -/
theorem unitNames_spec (u : String) (h : u ∈ unitNames) :
    u.toList ≠ [] ∧ (∀ c ∈ u.toList, isUnitChar c = true) ∧
      unitMap u = some ((unitMap u).getD 0) ∧ 0 < (unitMap u).getD 0 := by
  simp only [unitNames, List.mem_cons, List.mem_singleton, List.not_mem_nil, or_false] at h
  rcases h with rfl | rfl | rfl | rfl | rfl | rfl | rfl | rfl <;>
    exact ⟨by decide, by decide, by decide, by decide⟩

/-! ## C9: `Load` does not override -/

/-- What `os.Setenv` does on a pair it takes. -/
theorem os_Setenv_of_settable (acc : Environ) (k v : String) (h : settable k v) :
    os_Setenv acc k v = .ok (fun x => if x = k then some v else acc x) := by
  obtain ⟨h1, h2, h3, h4⟩ := h
  have hk : k.toList.any (fun c => c == '=' || c == Char.ofNat 0) = false := by
    rw [List.any_eq_false]
    intro c hc
    have e1 : c ≠ '=' := fun e => h2 (e ▸ hc)
    have e2 : c ≠ Char.ofNat 0 := fun e => h3 (e ▸ hc)
    simp [e1, e2]
  have hv : v.toList.any (fun c => c == Char.ofNat 0) = false := by
    rw [List.any_eq_false]
    intro c hc
    have e2 : c ≠ Char.ofNat 0 := fun e => h4 (e ▸ hc)
    simp [e2]
  unfold os_Setenv
  rw [if_neg h1, hk, hv]
  rfl

/-- What `os.Setenv` does on a pair it refuses. -/
theorem os_Setenv_of_not_settable (acc : Environ) (k v : String) (h : ¬ settable k v) :
    ∃ msg, os_Setenv acc k v = .error msg := by
  unfold os_Setenv
  by_cases h1 : k = ""
  · exact ⟨_, by rw [if_pos h1]⟩
  · rw [if_neg h1]
    by_cases hk : k.toList.any (fun c => c == '=' || c == Char.ofNat 0) = true
    · exact ⟨_, by rw [if_pos hk]⟩
    · rw [if_neg hk]
      by_cases hv : v.toList.any (fun c => c == Char.ofNat 0) = true
      · exact ⟨_, by rw [if_pos hv]⟩
      · exfalso
        apply h
        simp only [Bool.not_eq_true, List.any_eq_false, Bool.or_eq_true, beq_iff_eq,
          not_or] at hk hv
        exact ⟨h1, fun hm => (hk _ hm).1 rfl, fun hm => (hk _ hm).2 rfl,
          fun hm => hv _ hm rfl⟩

/-- One turn of the loop of `godotenv.Load` leaves every other variable alone. -/
theorem godotenv_applyPair_other (environ acc : Environ) (kv : String × String) (k : String)
    (hk : kv.1 ≠ k) : godotenv_applyPair environ acc kv k = acc k := by
  unfold godotenv_applyPair
  split
  · rfl
  · by_cases hs : settable kv.1 kv.2
    · rw [os_Setenv_of_settable acc kv.1 kv.2 hs]
      have hne : ¬ k = kv.1 := fun e => hk e.symm
      simp [hne]
    · obtain ⟨msg, hmsg⟩ := os_Setenv_of_not_settable acc kv.1 kv.2 hs
      rw [hmsg]

/-- The loop of `godotenv.Load` leaves a variable alone when no pair names it. -/
theorem applyPairs_fresh (environ : Environ) (m : StringMap) (acc : Environ) (k : String)
    (h : k ∉ m.map Prod.fst) :
    (m.foldl (godotenv_applyPair environ) acc) k = acc k := by
  induction m generalizing acc with
  | nil => rfl
  | cons kv rest ih =>
    rw [List.map_cons, List.mem_cons, not_or] at h
    rw [List.foldl_cons, ih _ h.2]
    exact godotenv_applyPair_other environ acc kv k (fun e => h.1 e.symm)

/-- The loop of `godotenv.Load` leaves a variable alone when it was set before
the call. -/
theorem applyPairs_keeps_set (environ : Environ) (m : StringMap) (acc : Environ) (k : String)
    (h : (environ k).isSome = true) :
    (m.foldl (godotenv_applyPair environ) acc) k = acc k := by
  induction m generalizing acc with
  | nil => rfl
  | cons kv rest ih =>
    rw [List.foldl_cons, ih]
    by_cases hk : kv.1 = k
    · unfold godotenv_applyPair
      rw [hk, if_pos h]
    · exact godotenv_applyPair_other environ acc kv k hk

/-- The loop of `godotenv.Load`, on a variable that was unset before the call
and that one pair of the mapping names: the variable takes the value when
`os.Setenv` takes the pair, and stays as it was when `os.Setenv` refuses it. -/
theorem applyPairs_unset (environ : Environ) (m : StringMap) (acc : Environ) (k v : String)
    (hnodup : (m.map Prod.fst).Nodup) (hmem : (k, v) ∈ m) (hunset : environ k = none) :
    (settable k v → (m.foldl (godotenv_applyPair environ) acc) k = some v) ∧
    (¬ settable k v → (m.foldl (godotenv_applyPair environ) acc) k = acc k) := by
  induction m generalizing acc with
  | nil => cases hmem
  | cons kv rest ih =>
    rw [List.map_cons, List.nodup_cons] at hnodup
    rw [List.foldl_cons]
    rcases List.mem_cons.1 hmem with hkv | hin
    · subst hkv
      rw [applyPairs_fresh environ rest _ k hnodup.1]
      constructor
      · intro hs
        simp [godotenv_applyPair, hunset, os_Setenv_of_settable acc k v hs]
      · intro hs
        obtain ⟨msg, hmsg⟩ := os_Setenv_of_not_settable acc k v hs
        simp [godotenv_applyPair, hunset, hmsg]
    · have hne : kv.1 ≠ k := by
        intro e
        exact hnodup.1 (List.mem_map.2 ⟨(k, v), hin, e.symm⟩)
      obtain ⟨h1, h2⟩ := ih (godotenv_applyPair environ acc kv) hnodup.2 hin
      exact ⟨h1, fun hs => (h2 hs).trans (godotenv_applyPair_other environ acc kv k hne)⟩

/-- C9 fails as worded: on the host whose `.env` parses to `A=1` and a value of
`B` holding a NUL, with neither variable set before the call, `Load` succeeds
and `A` takes the file's value, but `B`, a key of the file that was not set
before, does not take the file's value: it is still unset. -/
theorem Load_drops_refused_pair :
    (NewEnv.Load nulHost (fun _ => none)).2 = none ∧
    (NewEnv.Load nulHost (fun _ => none)).1 "A" = some "1" ∧
    (NewEnv.Load nulHost (fun _ => none)).1 "B" = none ∧
    ¬ ((NewEnv.Load nulHost (fun _ => none)).1 "B" = some "a\x00b") := by
  decide

/-- C9, amended: on a host where the working directory is known, `.env` in it
is a file and `godotenv` parses it to the mapping `envMap` (with distinct
keys), `Load` succeeds; every variable set before the call keeps its value;
every key of the file that was unset before the call and whose pair
`os.Setenv` takes (a non-empty name without `=` or NUL, a value without NUL)
holds the file's value afterwards, so that `os.Getenv` and `Getenv` on a
candidate resolving to that key read it; and a key whose pair `os.Setenv`
refuses stays unset. -/
theorem Load_does_not_override (env : Env) (host : Host) (environ : Environ)
    (curdir : String) (f : FileInfo) (envMap : StringMap)
    (hwd : host.os_Getwd = .ok curdir)
    (hstat : host.os_Stat (host.path_Join curdir ".env") = .ok f)
    (hfile : f.isDir = false)
    (hread : host.godotenv_readFile (host.path_Join curdir ".env") = .ok envMap)
    (hnodup : (envMap.map Prod.fst).Nodup) :
    (env.Load host environ).2 = none ∧
    (∀ k v, environ k = some v → (env.Load host environ).1 k = some v) ∧
    (∀ k v, (k, v) ∈ envMap → environ k = none → settable k v →
      (env.Load host environ).1 k = some v ∧
      os_Getenv (env.Load host environ).1 k = v ∧
      ∀ (e : Env) (c d : String), e.resolveName c = k → v ≠ "" →
        e.Getenv (env.Load host environ).1 d [c] = v) ∧
    (∀ k v, (k, v) ∈ envMap → environ k = none → ¬ settable k v →
      (env.Load host environ).1 k = none) := by
  have hL : env.Load host environ =
      (envMap.foldl (godotenv_applyPair environ) environ, none) := by
    simp [Env.Load, hwd, hstat, hfile, godotenv_Load, hread]
  rw [hL]
  refine ⟨rfl, ?_, ?_, ?_⟩
  · intro k v hk
    have := applyPairs_keeps_set environ envMap environ k (by simp [hk])
    simp only [this, hk]
  · intro k v hmem hunset hs
    have hset := (applyPairs_unset environ envMap environ k v hnodup hmem hunset).1 hs
    refine ⟨hset, os_Getenv_of_some _ _ _ hset, ?_⟩
    intro e c d hres hv
    have hg : os_Getenv (envMap.foldl (godotenv_applyPair environ) environ)
        (e.resolveName c) = v := by
      rw [hres]; exact os_Getenv_of_some _ _ _ hset
    simp only [Env.Getenv, hg, ne_eq, hv, not_false_eq_true, if_true]
  · intro k v hmem hunset hs
    have := (applyPairs_unset environ envMap environ k v hnodup hmem hunset).2 hs
    simp only [this, hunset]

/-- C9, amended, on the sample host: `A`, set to `0` before the call, keeps `0`
although the file says `A=1`; `B`, unset before the call, reads `2`
afterwards. -/
theorem Load_does_not_override_witness :
    (NewEnv.Load (sampleHost "/app") loadEnviron).2 = none ∧
    (NewEnv.Load (sampleHost "/app") loadEnviron).1 "A" = some "0" ∧
    NewEnv.Getenv (NewEnv.Load (sampleHost "/app") loadEnviron).1 "DEFAULT" ["B"] = "2" := by
  have h := Load_does_not_override NewEnv (sampleHost "/app") loadEnviron "/app"
    { isDir := false } [("A", "1"), ("B", "2")]
    (by decide) (by decide) (by decide) (by decide) (by decide)
  exact ⟨h.1, h.2.1 "A" "0" (by decide),
    (h.2.2.1 "B" "2" (by decide) (by decide) (by decide)).2.2 NewEnv "B" "DEFAULT"
      (by decide) (by decide)⟩

/-! ## C10: the not-found failure -/

theorem godotenv_Load_foreign (host : Host) (environ : Environ) (p msg : String) :
    (godotenv_Load host environ p).2 ≠ some (.errorsNew msg) := by
  unfold godotenv_Load
  cases host.godotenv_readFile p <;> simp

theorem godotenv_Read_foreign (host : Host) (environ : Environ) (p msg : String) :
    (godotenv_Read host environ p).2.2 ≠ some (.errorsNew msg) := by
  unfold godotenv_Read
  cases host.godotenv_readFile p <;> simp

/-- C10: when the working directory `curdir` is known, and `os.Stat` fails on
`.env` in it or reports a directory, `Load` and `Read` both leave the
environment as it was and return an error made on the spot whose message ends
with `curdir`, and `Read` returns the nil map; when `os.Stat` reports something
that is not a directory, both hand over to `godotenv` and the error they
return, if any, is not one of those two. -/
theorem Load_Read_not_found (env : Env) (host : Host) (environ : Environ) (curdir : String)
    (hwd : host.os_Getwd = .ok curdir) :
    (((∃ msg, host.os_Stat (host.path_Join curdir ".env") = .error msg) ∨
        (∃ f, host.os_Stat (host.path_Join curdir ".env") = .ok f ∧ f.isDir = true)) →
      env.Load host environ = (environ, some (loadNotFound curdir)) ∧
      env.Read host environ = (environ, none, some (readNotFound curdir)) ∧
      (loadNotFound curdir).message =
        "Could not open .env file in current directory: " ++ curdir ∧
      (readNotFound curdir).message =
        "Could not read .env file in current directory: " ++ curdir) ∧
    (∀ f, host.os_Stat (host.path_Join curdir ".env") = .ok f → f.isDir = false →
      env.Load host environ = godotenv_Load host environ (host.path_Join curdir ".env") ∧
      env.Read host environ = godotenv_Read host environ (host.path_Join curdir ".env") ∧
      (∀ dir, (env.Load host environ).2 ≠ some (loadNotFound dir)) ∧
      (∀ dir, (env.Read host environ).2.2 ≠ some (readNotFound dir))) := by
  constructor
  · intro h
    rcases h with ⟨msg, hmsg⟩ | ⟨f, hf, hdir⟩
    · refine ⟨?_, ?_, rfl, rfl⟩
      · simp [Env.Load, hwd, hmsg, loadNotFound]
      · simp [Env.Read, hwd, hmsg, readNotFound]
    · refine ⟨?_, ?_, rfl, rfl⟩
      · simp [Env.Load, hwd, hf, hdir, loadNotFound]
      · simp [Env.Read, hwd, hf, hdir, readNotFound]
  · intro f hf hdir
    have hL : env.Load host environ =
        godotenv_Load host environ (host.path_Join curdir ".env") := by
      simp [Env.Load, hwd, hf, hdir]
    have hR : env.Read host environ =
        godotenv_Read host environ (host.path_Join curdir ".env") := by
      simp [Env.Read, hwd, hf, hdir]
    refine ⟨hL, hR, ?_, ?_⟩
    · intro dir; rw [hL]; exact godotenv_Load_foreign _ _ _ _
    · intro dir; rw [hR]; exact godotenv_Read_foreign _ _ _ _

/-- C10 on the sample host: in `/tmp`, where there is no `.env`, `Read` fails
with the message that names `/tmp`, returns no map and leaves the environment
as it was; in `/srv`, where `.env` is a directory, `Load` fails likewise; in
`/app`, where `.env` is a file, `Load` does not return that error. -/
theorem Load_Read_not_found_witness :
    NewEnv.Read (sampleHost "/tmp") loadEnviron =
      (loadEnviron, none,
        some (.errorsNew "Could not read .env file in current directory: /tmp")) ∧
    NewEnv.Load (sampleHost "/srv") loadEnviron =
      (loadEnviron,
        some (.errorsNew "Could not open .env file in current directory: /srv")) ∧
    (NewEnv.Load (sampleHost "/app") loadEnviron).2 ≠ some (loadNotFound "/app") :=
  ⟨((Load_Read_not_found NewEnv (sampleHost "/tmp") loadEnviron "/tmp" (by decide)).1
      (Or.inl ⟨"stat /tmp/.env: no such file or directory", by decide⟩)).2.1,
   ((Load_Read_not_found NewEnv (sampleHost "/srv") loadEnviron "/srv" (by decide)).1
      (Or.inr ⟨{ isDir := true }, by decide, by decide⟩)).1,
   ((Load_Read_not_found NewEnv (sampleHost "/app") loadEnviron "/app" (by decide)).2
      { isDir := false } (by decide) (by decide)).2.2.1 "/app"⟩

/-! ## C11: the not-found errors of `Load` and `Read` -/

/-- The two not-found messages differ for every working directory: one says
`open`, the other `read`. -/
theorem notFound_messages_differ (curdir : String) :
    (readNotFound curdir).message ≠ (loadNotFound curdir).message := by
  intro h
  have h2 := congrArg String.toList h
  simp only [readNotFound, loadNotFound, Error.message, String.toList, String.data_append] at h2
  have h3 := (List.append_inj h2 (by decide)).1
  revert h3
  decide

/-- C11 fails as worded: in `/tmp` of the sample host, where `.env` is absent,
the error of `Read` and the error of `Load` do not carry the same message. -/
theorem Read_Load_not_found_same_message_fails :
    ¬ ((NewEnv.Read (sampleHost "/tmp") loadEnviron).2.2.map Error.message =
        (NewEnv.Load (sampleHost "/tmp") loadEnviron).2.map Error.message) := by
  decide

/-- C11, amended: when the working directory `curdir` is known and `os.Stat`
fails on `.env` in it, `Read` and `Load` both return an error made on the spot
that names `curdir`: `Load` with the message `Could not open .env file in
current directory: ` followed by `curdir`, `Read` with the message `Could not
read .env file in current directory: ` followed by `curdir`.  The two messages
have the same wording but for the verb, and are never equal. -/
theorem Read_Load_not_found_messages (env : Env) (host : Host) (environ : Environ)
    (curdir msg : String)
    (hwd : host.os_Getwd = .ok curdir)
    (habsent : host.os_Stat (host.path_Join curdir ".env") = .error msg) :
    (env.Load host environ).2.map Error.message =
      some ("Could not open .env file in current directory: " ++ curdir) ∧
    (env.Read host environ).2.2.map Error.message =
      some ("Could not read .env file in current directory: " ++ curdir) ∧
    (∃ m, (env.Load host environ).2 = some (.errorsNew m)) ∧
    (∃ m, (env.Read host environ).2.2 = some (.errorsNew m)) ∧
    (env.Read host environ).2.2.map Error.message ≠
      (env.Load host environ).2.map Error.message := by
  have hL : (env.Load host environ).2 = some (loadNotFound curdir) := by
    simp [Env.Load, hwd, habsent, loadNotFound]
  have hR : (env.Read host environ).2.2 = some (readNotFound curdir) := by
    simp [Env.Read, hwd, habsent, readNotFound]
  rw [hL, hR]
  refine ⟨rfl, rfl, ⟨_, rfl⟩, ⟨_, rfl⟩, ?_⟩
  simp only [Option.map_some', ne_eq, Option.some.injEq]
  exact notFound_messages_differ curdir

/-- C11, amended, in `/tmp` of the sample host: the message of `Read`. -/
theorem Read_Load_not_found_messages_witness :
    (NewEnv.Read (sampleHost "/tmp") loadEnviron).2.2.map Error.message =
      some "Could not read .env file in current directory: /tmp" :=
  (Read_Load_not_found_messages NewEnv (sampleHost "/tmp") loadEnviron "/tmp"
    "stat /tmp/.env: no such file or directory" (by decide) (by decide)).2.1

/-! ## C12: construction and prefix mutation -/

/-- C12: `NewEnv` has the empty prefix; `NewEnvWithPrefix p` has prefix `p` for
every string `p`, the empty one included; `SetPrefix p` on any accessor leaves
the prefix equal to `p`, with no validation; and `NewEnv` followed by
`SetPrefix p` is the accessor `NewEnvWithPrefix p`. -/
theorem construction_and_SetPrefix (p : String) (e : Env) :
    NewEnv.Prefix = "" ∧
    (NewEnvWithPrefix p).Prefix = p ∧
    (NewEnvWithPrefix "").Prefix = "" ∧
    (e.SetPrefix p).Prefix = p ∧
    (e.SetPrefix "").Prefix = "" ∧
    NewEnv.SetPrefix p = NewEnvWithPrefix p := by
  refine ⟨rfl, rfl, rfl, rfl, rfl, ?_⟩
  simp only [Env.SetPrefix, NewEnvWithPrefix, NewEnv]

/-! ## C13: the typed getters and the generic primitive -/

/-- The loop of the typed getters leaves in `value` what `Getenv` returns with
the empty string as default. -/
theorem lookupLoop_eq_Getenv (env : Env) (environ : Environ) (cs : List String) :
    env.lookupLoop environ cs "" = env.Getenv environ "" cs := by
  induction cs with
  | nil => rfl
  | cons c rest ih =>
    by_cases h : os_Getenv environ (env.resolveName c) = ""
    · simp only [Env.lookupLoop, Env.Getenv, h, ne_eq, not_true_eq_false, if_false]
      exact ih
    · simp only [Env.lookupLoop, Env.Getenv, ne_eq, h, not_false_eq_true, if_true]

/-- C13: each of the five typed getters equals the generic resolution primitive
taken with the getter's parse function, for every accessor, environment,
default and candidate list. -/
theorem typed_getters_refine_genericResolve {F T : Type}
    (strconv_ParseFloat : String → Option F) (time_Parse : Environ → String → String → Option T)
    (fracNanos : Nat → Nat → Nat → Nat)
    (env : Env) (environ : Environ) (cs : List String) :
    (∀ d : Int, env.GetInt environ d cs =
      genericResolve (fun s => (strconv_Atoi s).toOption) env environ d cs) ∧
    (∀ d : F, env.GetFloat strconv_ParseFloat environ d cs =
      genericResolve strconv_ParseFloat env environ d cs) ∧
    (∀ d : Bool, env.GetBool environ d cs =
      genericResolve (fun s => (strconv_ParseBool s).toOption) env environ d cs) ∧
    (∀ d : Int, env.GetDuration fracNanos environ d cs =
      genericResolve (time_ParseDuration fracNanos) env environ d cs) ∧
    (∀ (layout : String) (d : T), env.GetTime time_Parse environ layout d cs =
      genericResolve (time_Parse environ layout) env environ d cs) := by
  have hl := lookupLoop_eq_Getenv env environ cs
  refine ⟨?_, ?_, ?_, ?_, ?_⟩
  · intro d
    simp only [Env.GetInt, genericResolve, hl]
    split
    · rfl
    · cases strconv_Atoi (env.Getenv environ "" cs) <;> rfl
  · intro d
    simp only [Env.GetFloat, genericResolve, hl]
    split
    · rfl
    · cases strconv_ParseFloat (env.Getenv environ "" cs) <;> rfl
  · intro d
    simp only [Env.GetBool, genericResolve, hl]
    split
    · rfl
    · cases strconv_ParseBool (env.Getenv environ "" cs) <;> rfl
  · intro d
    simp only [Env.GetDuration, genericResolve, hl]
    split
    · rfl
    · cases time_ParseDuration fracNanos (env.Getenv environ "" cs) <;> rfl
  · intro layout d
    simp only [Env.GetTime, genericResolve, hl]
    split
    · rfl
    · cases time_Parse environ layout (env.Getenv environ "" cs) <;> rfl

/-! ## C14: candidate lists as nested defaults -/

/-- C14: `Getenv` on the candidates `xs ++ ys` with default `d` equals `Getenv`
on `xs` with `Getenv(d, ys)` as default. -/
theorem Getenv_append_nested (env : Env) (environ : Environ) (d : String)
    (xs ys : List String) :
    env.Getenv environ d (xs ++ ys) = env.Getenv environ (env.Getenv environ d ys) xs := by
  induction xs with
  | nil => rfl
  | cons x rest ih =>
    by_cases h : os_Getenv environ (env.resolveName x) = ""
    · simp only [List.cons_append, Env.Getenv, h, ne_eq, not_true_eq_false, if_false]
      exact ih
    · simp only [List.cons_append, Env.Getenv, ne_eq, h, not_false_eq_true, if_true]

/-! ## C15: the getters read the resolved names only -/

/-- `Getenv` returns the same in two environments that read alike on every
resolved candidate name. -/
theorem Getenv_congr (env : Env) (e1 e2 : Environ) (d : String) (cs : List String)
    (h : ∀ c ∈ cs, os_Getenv e1 (env.resolveName c) = os_Getenv e2 (env.resolveName c)) :
    env.Getenv e1 d cs = env.Getenv e2 d cs := by
  induction cs with
  | nil => rfl
  | cons c rest ih =>
    have hc := h c (List.mem_cons_self _ _)
    have hrest : ∀ x ∈ rest,
        os_Getenv e1 (env.resolveName x) = os_Getenv e2 (env.resolveName x) :=
      fun x hx => h x (List.mem_cons_of_mem _ hx)
    simp only [Env.Getenv, hc, ih hrest]

/-- The loop of the typed getters leaves the same `value` in two environments
that read alike on every resolved candidate name. -/
theorem lookupLoop_congr (env : Env) (e1 e2 : Environ) (cs : List String) (value : String)
    (h : ∀ c ∈ cs, os_Getenv e1 (env.resolveName c) = os_Getenv e2 (env.resolveName c)) :
    env.lookupLoop e1 cs value = env.lookupLoop e2 cs value := by
  induction cs generalizing value with
  | nil => rfl
  | cons c rest ih =>
    have hc := h c (List.mem_cons_self _ _)
    have hrest : ∀ x ∈ rest,
        os_Getenv e1 (env.resolveName x) = os_Getenv e2 (env.resolveName x) :=
      fun x hx => h x (List.mem_cons_of_mem _ hx)
    simp only [Env.lookupLoop, hc, ih _ hrest]

/-- C15 fails as worded for `GetTime`: the two environments agree on `ZONE`,
the one resolved candidate name, and differ in `TZ`; under the layout `MST`
the value `CEST` is read with the offset 7200 where `TZ` is `Europe/Berlin`
and with the offset 0 where `TZ` is `UTC`. -/
theorem GetTime_reads_TZ :
    (∀ c ∈ ["ZONE"], berlinEnviron (NewEnv.resolveName c) = utcEnviron (NewEnv.resolveName c)) ∧
    NewEnv.GetTime zoneParse berlinEnviron "MST" (-1) ["ZONE"] = 7200 ∧
    NewEnv.GetTime zoneParse utcEnviron "MST" (-1) ["ZONE"] = 0 ∧
    ¬ (NewEnv.GetTime zoneParse berlinEnviron "MST" (-1) ["ZONE"] =
        NewEnv.GetTime zoneParse utcEnviron "MST" (-1) ["ZONE"]) := by
  decide

/-- C15, amended: for `Getenv`, `GetInt`, `GetFloat`, `GetBool` and
`GetDuration`, any accessor, default and candidate list, two environments that
agree on every resolved candidate name give the same result, whatever else
they contain.  `GetTime` gives the same result in both when, besides,
`time.Parse` parses alike under both; that is so for a parser that reads the
environment through `TZ` only, when the two environments agree on `TZ`. -/
theorem getters_read_resolved_names_only {F T : Type}
    (strconv_ParseFloat : String → Option F) (time_Parse : Environ → String → String → Option T)
    (fracNanos : Nat → Nat → Nat → Nat)
    (env : Env) (e1 e2 : Environ) (cs : List String)
    (h : ∀ c ∈ cs, e1 (env.resolveName c) = e2 (env.resolveName c)) :
    (∀ d : String, env.Getenv e1 d cs = env.Getenv e2 d cs) ∧
    (∀ d : Int, env.GetInt e1 d cs = env.GetInt e2 d cs) ∧
    (∀ d : F, env.GetFloat strconv_ParseFloat e1 d cs =
      env.GetFloat strconv_ParseFloat e2 d cs) ∧
    (∀ d : Bool, env.GetBool e1 d cs = env.GetBool e2 d cs) ∧
    (∀ d : Int, env.GetDuration fracNanos e1 d cs = env.GetDuration fracNanos e2 d cs) ∧
    ((∀ layout s, time_Parse e1 layout s = time_Parse e2 layout s) →
      ∀ (layout : String) (d : T), env.GetTime time_Parse e1 layout d cs =
        env.GetTime time_Parse e2 layout d cs) ∧
    (∀ p : Option String → String → String → Option T, e1 "TZ" = e2 "TZ" →
      ∀ (layout : String) (d : T),
        env.GetTime (fun environ => p (environ "TZ")) e1 layout d cs =
          env.GetTime (fun environ => p (environ "TZ")) e2 layout d cs) := by
  have hg : ∀ c ∈ cs,
      os_Getenv e1 (env.resolveName c) = os_Getenv e2 (env.resolveName c) := by
    intro c hc
    simp only [os_Getenv, h c hc]
  have hl := lookupLoop_congr env e1 e2 cs "" hg
  refine ⟨?_, ?_, ?_, ?_, ?_, ?_, ?_⟩
  · intro d; exact Getenv_congr env e1 e2 d cs hg
  · intro d; simp only [Env.GetInt, hl]
  · intro d; simp only [Env.GetFloat, hl]
  · intro d; simp only [Env.GetBool, hl]
  · intro d; simp only [Env.GetDuration, hl]
  · intro hp layout d; simp only [Env.GetTime, hl, hp]
  · intro p htz layout d; simp only [Env.GetTime, hl, htz]

/-- C15, amended, on sample environments that differ in the variable `OTHER`:
under the prefix `PREFIX`, `Getenv` reads `GOOD` and `TEST` alike in both;
under no prefix `GetInt` reads `EMPTY` and `GOOD` alike in both; and `GetTime`
reads `ZONE` alike in both, `TZ` being `Europe/Berlin` in both. -/
theorem getters_read_resolved_names_only_witness :
    (NewEnvWithPrefix "PREFIX").Getenv sampleEnviron "DEFAULT" ["GOOD", "TEST"] =
      (NewEnvWithPrefix "PREFIX").Getenv sampleEnvironOther "DEFAULT" ["GOOD", "TEST"] ∧
    NewEnv.GetInt sampleEnviron 1 ["EMPTY", "GOOD"] =
      NewEnv.GetInt sampleEnvironOther 1 ["EMPTY", "GOOD"] ∧
    NewEnv.GetTime zoneParse berlinEnviron "MST" (-1) ["ZONE"] =
      NewEnv.GetTime zoneParse berlinEnvironOther "MST" (-1) ["ZONE"] :=
  ⟨(getters_read_resolved_names_only (fun _ : String => (none : Option Nat))
      (fun (_ : Environ) (_ _ : String) => (none : Option Nat)) (fun _ _ _ => 0)
      (NewEnvWithPrefix "PREFIX") sampleEnviron sampleEnvironOther ["GOOD", "TEST"]
      (by decide)).1 "DEFAULT",
   (getters_read_resolved_names_only (fun _ : String => (none : Option Nat))
      (fun (_ : Environ) (_ _ : String) => (none : Option Nat)) (fun _ _ _ => 0)
      NewEnv sampleEnviron sampleEnvironOther ["EMPTY", "GOOD"]
      (by decide)).2.1 1,
   (getters_read_resolved_names_only (fun _ : String => (none : Option Nat))
      zoneParse (fun _ _ _ => 0)
      NewEnv berlinEnviron berlinEnvironOther ["ZONE"]
      (by decide)).2.2.2.2.2.1
      (fun layout s => by
        have htz : berlinEnviron "TZ" = berlinEnvironOther "TZ" := by decide
        simp only [zoneParse, htz])
      "MST" (-1)⟩

/-! ## Float64 arithmetic on whole numbers -/

theorem roundNE_mul (x d : Nat) (hd : 0 < d) : roundNE (x * d) d = x := by
  unfold roundNE
  simp only [Nat.mul_div_cancel _ hd, Nat.mul_mod_left, Nat.mul_zero]
  rw [if_pos hd]

/-- The halving count is the position of the highest bit. -/
theorem bitLog_spec (fuel n : Nat) (hf : n ≤ fuel) (hn : 1 ≤ n) :
    2 ^ bitLog fuel n ≤ n ∧ n < 2 ^ (bitLog fuel n + 1) := by
  induction fuel generalizing n with
  | zero => omega
  | succ fuel ih =>
    unfold bitLog
    by_cases h2 : n < 2
    · rw [if_pos h2]
      constructor
      · simpa using hn
      · simpa using h2
    · rw [if_neg h2]
      obtain ⟨h3, h4⟩ := ih (n / 2) (by omega) (by omega)
      constructor
      · rw [pow_succ]; omega
      · rw [pow_succ]; omega

/-- A whole number below `2 ^ 53` lies below the 53rd power of two, so its
exponent leaves room for all its bits. -/
theorem floorLog2_le (n d : Nat) (hn : 0 < n) (hn53 : n < 2 ^ 53) (hd : 0 < d) :
    floorLog2 (n * d) d ≤ 52 := by
  have hnd : 1 ≤ n * d := Nat.mul_pos hn hd
  obtain ⟨hA1, hA2⟩ := bitLog_spec (n * d) (n * d) (le_refl _) hnd
  obtain ⟨hB1, hB2⟩ := bitLog_spec d d (le_refl _) hd
  have hlt : 2 ^ bitLog (n * d) (n * d) < 2 ^ (bitLog d d + 54) := by
    calc 2 ^ bitLog (n * d) (n * d) ≤ n * d := hA1
      _ < 2 ^ 53 * 2 ^ (bitLog d d + 1) := Nat.mul_lt_mul'' hn53 hB2
      _ = 2 ^ (bitLog d d + 54) := by rw [← pow_add]; congr 1; omega
  have hA : bitLog (n * d) (n * d) < bitLog d d + 54 :=
    (Nat.pow_lt_pow_iff_right (by decide)).1 hlt
  unfold floorLog2
  simp only
  split_ifs with h1 h2 h3
  · -- 0 ≤ l and d * 2 ^ l ≤ n * d
    by_contra hc
    have hl : 53 ≤ ((bitLog (n * d) (n * d) : Int) - (bitLog d d : Int)).toNat := by omega
    have hp : 2 ^ 53 ≤ 2 ^ ((bitLog (n * d) (n * d) : Int) - (bitLog d d : Int)).toNat :=
      Nat.pow_le_pow_right (by decide) hl
    have : d * 2 ^ 53 ≤ n * d := le_trans (Nat.mul_le_mul_left d hp) h2
    have : d * 2 ^ 53 ≤ d * n := by rwa [Nat.mul_comm n d] at this
    have := Nat.le_of_mul_le_mul_left this hd
    omega
  · omega
  · omega
  · omega

/-- Rounding leaves a whole number below `2 ^ 53` as it is. -/
theorem F64_round_whole (n d : Nat) (hn53 : n < 2 ^ 53) (hd : 0 < d) :
    (F64.round (n * d) d).IsNat n := by
  by_cases hn : n = 0
  · subst hn
    exact ⟨1, by decide, by simp [F64.round]⟩
  · have hnpos : 0 < n := Nat.pos_of_ne_zero hn
    have hnd : n * d ≠ 0 := Nat.mul_ne_zero hn (by omega)
    have hle := floorLog2_le n d hnpos hn53 hd
    unfold F64.round
    rw [if_neg hnd]
    simp only
    by_cases he : 0 ≤ max (floorLog2 (n * d) d - 52) (-1074)
    · have he0 : max (floorLog2 (n * d) d - 52) (-1074) = 0 := by omega
      rw [if_pos he, he0]
      simp only [Int.toNat_zero, pow_zero, Nat.mul_one, roundNE_mul n d hd]
      rw [if_neg (not_le.2 (lt_trans hn53 (Nat.pow_lt_pow_right (by decide) (by decide))))]
      exact ⟨1, by decide, by simp⟩
    · rw [if_neg he]
      refine ⟨2 ^ (-max (floorLog2 (n * d) d - 52) (-1074)).toNat, by positivity, ?_⟩
      have : n * d * 2 ^ (-max (floorLog2 (n * d) d - 52) (-1074)).toNat =
          n * 2 ^ (-max (floorLog2 (n * d) d - 52) (-1074)).toNat * d := by ring
      rw [this, roundNE_mul _ d hd]

theorem F64_ofNat_whole (n : Nat) (hn53 : n < 2 ^ 53) : (F64.ofNat n).IsNat n := by
  have := F64_round_whole n 1 hn53 (by decide)
  rwa [Nat.mul_one] at this

theorem F64_mul_whole (x y : F64) (a b : Nat) (hx : x.IsNat a) (hy : y.IsNat b)
    (h53 : a * b < 2 ^ 53) : (F64.mul x y).IsNat (a * b) := by
  obtain ⟨b1, hb1, rfl⟩ := hx
  obtain ⟨b2, hb2, rfl⟩ := hy
  have e : a * b1 * (b * b2) = a * b * (b1 * b2) := by ring
  simp only [F64.mul, e]
  exact F64_round_whole (a * b) (b1 * b2) h53 (Nat.mul_pos hb1 hb2)

theorem F64_div_whole (x y : F64) (q c : Nat) (hx : x.IsNat (q * c)) (hy : y.IsNat c)
    (hc : 0 < c) (h53 : q < 2 ^ 53) : (F64.div x y).IsNat q := by
  obtain ⟨b1, hb1, rfl⟩ := hx
  obtain ⟨b2, hb2, rfl⟩ := hy
  have hne : c * b2 ≠ 0 := Nat.mul_ne_zero (by omega) (by omega)
  have e : q * c * b1 * b2 = q * (b1 * (c * b2)) := by ring
  simp only [F64.div, if_neg hne, e]
  exact F64_round_whole q (b1 * (c * b2)) h53 (Nat.mul_pos hb1 (Nat.mul_pos hc hb2))

theorem F64_toUint64_whole (x : F64) (n : Nat) (hx : x.IsNat n) (hn : n < 2 ^ 64) :
    x.toUint64 = n := by
  obtain ⟨b, hb, rfl⟩ := hx
  simp only [F64.toUint64, Nat.mul_div_cancel _ hb, if_pos hn]

theorem float64_scale_whole (k : Nat) (hk : k ≤ 15) : (float64_scale k).IsNat (10 ^ k) := by
  induction k with
  | zero => exact F64_ofNat_whole 1 (by decide)
  | succ k ih =>
    have h10 : (10 : Nat) ^ (k + 1) < 2 ^ 53 :=
      lt_of_le_of_lt (Nat.pow_le_pow_right (by decide) hk) (by decide)
    rw [pow_succ] at h10 ⊢
    exact F64_mul_whole _ _ _ _ (ih (by omega)) (F64_ofNat_whole 10 (by decide)) h10

/-- The float64 expression is exact when the power of ten divides the unit: it
gives the fraction times the unit over the power of ten. -/
theorem float64_fracNanos_exact (f unit k : Nat) (hk : k ≤ 15) (hdvd : 10 ^ k ∣ unit)
    (hunit : unit < 2 ^ 53) (hf : f < 10 ^ k) :
    float64_fracNanos f unit k = f * unit / 10 ^ k := by
  obtain ⟨q, rfl⟩ := hdvd
  have hpos : 0 < 10 ^ k := by positivity
  have hq : q < 2 ^ 53 := lt_of_le_of_lt (Nat.le_mul_of_pos_left q hpos) hunit
  have hf53 : f < 2 ^ 53 :=
    lt_trans hf (lt_of_le_of_lt (Nat.pow_le_pow_right (by decide) hk) (by decide))
  have hfq : f * q < 2 ^ 53 :=
    lt_of_le_of_lt (Nat.mul_le_mul_right q (le_of_lt hf)) hunit
  have hu : (F64.ofNat (10 ^ k * q)).IsNat (q * 10 ^ k) := by
    rw [Nat.mul_comm q]; exact F64_ofNat_whole _ hunit
  have hd := F64_div_whole _ _ q (10 ^ k) hu (float64_scale_whole k hk) hpos hq
  have hm := F64_mul_whole _ _ f q (F64_ofNat_whole f hf53) hd hfq
  unfold float64_fracNanos
  rw [F64_toUint64_whole _ _ hm (lt_trans hfq (by decide))]
  rw [show f * (10 ^ k * q) = f * q * 10 ^ k by ring, Nat.mul_div_cancel _ hpos]

/-! ## C8: `GetDuration` and the sum of the components -/

/-- A digit string of length `n` denotes a number below the `n`th power of ten. -/
theorem decAccum_lt (ds : List Char) (acc : Nat) (h : ∀ c ∈ ds, c.isDigit = true) :
    decAccum ds acc + 1 ≤ (acc + 1) * 10 ^ ds.length := by
  induction ds generalizing acc with
  | nil => simp [decAccum]
  | cons c cs ih =>
    have hc : c.isDigit = true := h c (List.mem_cons_self _ _)
    have hcs : ∀ x ∈ cs, x.isDigit = true := fun x hx => h x (List.mem_cons_of_mem _ hx)
    have hv : c.toNat - 48 ≤ 9 := by
      simp only [Char.isDigit, Bool.and_eq_true, decide_eq_true_eq] at hc
      have := hc.2
      have e : c.toNat = c.val.toNat := rfl
      have : c.val.toNat ≤ 57 := by
        have h57 : c.val ≤ 57 := hc.2
        exact h57
      omega
    rw [decAccum_cons, List.length_cons, pow_succ]
    calc decAccum cs (acc * 10 + (c.toNat - 48)) + 1
        ≤ (acc * 10 + (c.toNat - 48) + 1) * 10 ^ cs.length := ih _ hcs
      _ ≤ ((acc + 1) * 10) * 10 ^ cs.length := Nat.mul_le_mul_right _ (by omega)
      _ = (acc + 1) * (10 ^ cs.length * 10) := by ring

theorem decimalValue_lt (ds : List Char) (h : ∀ c ∈ ds, c.isDigit = true) :
    decimalValue ds < 10 ^ ds.length := by
  have := decAccum_lt ds 0 h
  rw [decAccum_zero] at this
  omega

/-- On decimal digits followed by something that is not a digit,
`leadingFraction` returns the number the digits denote and their count, and
leaves the rest, as long as the number stays below `1 << 63`. -/
theorem leadingFraction_digits (fd tail : List Char) (x k : Nat)
    (hd : ∀ c ∈ fd, c.isDigit = true)
    (ht : ∀ c t, tail = c :: t → c.isDigit = false)
    (hfit : decAccum fd x ≤ 2 ^ 63 - 1) :
    leadingFraction (fd ++ tail) x k false = (decAccum fd x, k + fd.length, tail) := by
  induction fd generalizing x k with
  | nil =>
    cases tail with
    | nil => rfl
    | cons c t => simp [leadingFraction, decAccum, ht c t rfl]
  | cons c cs ih =>
    have hc : c.isDigit = true := hd c (List.mem_cons_self _ _)
    have hcs : ∀ y ∈ cs, y.isDigit = true := fun y hy => hd y (List.mem_cons_of_mem _ hy)
    rw [decAccum_cons] at hfit ⊢
    have hmono := le_decAccum cs (x * 10 + (c.toNat - 48))
    have h1 : ¬ x > (2 ^ 63 - 1) / 10 := by omega
    have h2 : ¬ x * 10 + (c.toNat - 48) > 2 ^ 63 := by omega
    simp only [List.cons_append, leadingFraction, hc, not_true_eq_false, if_false, if_neg h1,
      if_neg h2, Bool.false_eq_true]
    have e := ih (x * 10 + (c.toNat - 48)) (k + 1) hcs hfit
    rw [show cs.append tail = cs ++ tail from rfl, e, List.length_cons]
    congr 2
    omega

/-- A unit name is found in `unitMap` with the length of the unit, which is
positive, below `2 ^ 53`, and a multiple of the power of ten of its decimal
places. -/
theorem unitNanos_spec (u : String) (h : u ∈ unitNames) :
    unitMap u = some (unitNanos u) ∧ 0 < unitNanos u ∧ unitNanos u < 2 ^ 53 ∧
      10 ^ unitDecimals u ∣ unitNanos u ∧ unitDecimals u ≤ 11 := by
  simp only [unitNames, List.mem_cons, List.mem_singleton, List.not_mem_nil, or_false] at h
  rcases h with rfl | rfl | rfl | rfl | rfl | rfl | rfl | rfl <;>
    exact ⟨by decide, by decide, by decide, by decide, by decide⟩

/-- One turn of the loop of `time.ParseDuration`, from what its parts return:
the whole number `v`, the fraction `f` with `k` digits counted, the unit, and
the nanoseconds `w` they add up to. -/
theorem durationStep_eval (fracNanos : Nat → Nat → Nat → Nat) (c0 : Char)
    (s0 s1 s2 u s3 : List Char) (d v f k unit w : Nat) (post : Bool)
    (hc0 : isUnitChar c0 = false)
    (hLI : leadingInt (c0 :: s0) 0 = some (v, s1))
    (hfrac : fractionPart s1 = (f, k, post, s2))
    (hpp : (c0 :: s0).length ≠ s1.length ∨ post = true)
    (hspan : s2.span isUnitChar = (u, s3)) (hu : u ≠ [])
    (hmap : unitMap (String.mk u) = some unit)
    (hdiv : v ≤ 2 ^ 63 / unit)
    (hv2 : (if f > 0 then (v * unit + fracNanos f unit k) % 2 ^ 64 else v * unit) = w)
    (hw : w ≤ 2 ^ 63) (hd : d + w ≤ 2 ^ 63) :
    durationStep fracNanos (c0 :: s0) d = some (s3, d + w) := by
  have hpp2 : ¬ (decide ((c0 :: s0).length ≠ s1.length) = false ∧ post = false) := by
    rintro ⟨h1, h2⟩
    rcases hpp with h | h
    · simp only [decide_eq_false_iff_not, not_not] at h1
      exact h h1
    · rw [h] at h2; cases h2
  have hdiv2 : ¬ v > 2 ^ 63 / unit := not_lt.2 hdiv
  have hw2 : ¬ (f > 0 ∧ w > 2 ^ 63) := fun h => absurd h.2 (not_lt.2 hw)
  have hmod : (d + w) % 2 ^ 64 = d + w := Nat.mod_eq_of_lt (by omega)
  have hd2 : ¬ d + w > 2 ^ 63 := not_lt.2 hd
  unfold durationStep
  simp only [hc0, Bool.false_eq_true, if_false, hLI, hfrac, if_neg hpp2, hspan, if_neg hu,
    hmap, if_neg hdiv2, hv2, if_neg hw2, hmod, if_neg hd2]

/-- One turn of the loop of `time.ParseDuration` on a component that is a whole
number of nanoseconds: the component is consumed and its nanoseconds are
added to the total. -/
theorem durationStep_component (p : DurationComponent) (rest : List Char) (d : Nat)
    (hwf : wellFormedComponent p) (hwhole : wholeNanosComponent p)
    (hrest : ∀ c t, rest = c :: t → isUnitChar c = false)
    (hfit : d + componentNanos p ≤ 2 ^ 63) :
    durationStep float64_fracNanos (renderComponent p ++ rest) d =
      some (rest, d + componentNanos p) := by
  obtain ⟨whole, frac, unit⟩ := p
  obtain ⟨hW, hF, hne, hu⟩ := hwf
  obtain ⟨hune, huc, _, _⟩ := unitNames_spec unit hu
  obtain ⟨hmap, hpos, h53, hdvd, hdec⟩ := unitNanos_spec unit hu
  obtain ⟨c1, t1, hu1⟩ := List.exists_cons_of_ne_nil hune
  have hc1 : isUnitChar c1 = true := huc c1 (by rw [hu1]; exact List.mem_cons_self _ _)
  have hc1dot : c1 ≠ '.' := by
    rintro rfl; revert hc1; decide
  have hc1dig : c1.isDigit = false := unitChar_not_isDigit c1 hc1
  have hspan : (unit.toList ++ rest).span isUnitChar = (unit.toList, rest) :=
    span_isUnitChar _ _ huc hrest
  have hmk : unitMap (String.mk unit.toList) = some (unitNanos unit) := hmap
  simp only [wholeNanosComponent, componentNanos, DurationComponent.fracDigits] at hwhole hfit hF hne ⊢
  have hWle : decimalValue whole * unitNanos unit ≤ 2 ^ 63 :=
    Nat.le_trans (Nat.le_add_right _ _) (Nat.le_trans (Nat.le_add_left _ _) hfit)
  have hdiv : decimalValue whole ≤ 2 ^ 63 / unitNanos unit :=
    (Nat.le_div_iff_mul_le hpos).2 hWle
  have hWfit : decAccum whole 0 ≤ 2 ^ 63 := by
    rw [decAccum_zero]
    exact le_trans (Nat.le_mul_of_pos_right _ hpos) hWle
  cases frac with
  | none =>
    simp only [Option.getD_none, List.length_nil, pow_zero, Nat.div_one, decimalValue,
      List.map_nil, List.reverse_nil, Nat.ofDigits_nil, Nat.zero_mul, Nat.add_zero,
      ne_eq, not_true_eq_false, or_false] at hfit hne ⊢
    obtain ⟨c0, cs0, rfl⟩ := List.exists_cons_of_ne_nil hne
    have hc0 : isUnitChar c0 = false :=
      isDigit_not_unitChar c0 (hW c0 (List.mem_cons_self _ _))
    have hrender : renderComponent ⟨c0 :: cs0, none, unit⟩ ++ rest =
        c0 :: (cs0 ++ (unit.toList ++ rest)) := by
      simp [renderComponent]
    have hLI : leadingInt (c0 :: (cs0 ++ (unit.toList ++ rest))) 0 =
        some (decimalValue (c0 :: cs0), unit.toList ++ rest) := by
      rw [← decAccum_zero, ← List.cons_append]
      apply leadingInt_digits _ _ _ hW
      · intro c t hct
        rw [hu1] at hct
        simp only [List.cons_append, List.cons.injEq] at hct
        rw [← hct.1]; exact hc1dig
      · exact hWfit
    have hfrac : fractionPart (unit.toList ++ rest) = (0, 0, false, unit.toList ++ rest) := by
      rw [hu1]
      simp [fractionPart, hc1dot]
    rw [hrender]
    have hd' : decimalValue (c0 :: cs0) = Nat.ofDigits 10 (List.map digitValue (c0 :: cs0)).reverse := rfl
    rw [← hd'] at hfit ⊢
    exact durationStep_eval float64_fracNanos c0 _ _ _ _ _ d _ 0 0 _ _ false hc0 hLI hfrac
      (Or.inl (by simp only [List.length_cons, List.length_append]; omega))
      hspan hune hmk hdiv (by simp) hWle hfit
  | some fd =>
    simp only [Option.getD_some] at hF hne hwhole hfit ⊢
    have hfv : decimalValue fd < 10 ^ fd.length := decimalValue_lt fd hF
    have hcomp : decimalValue whole * unitNanos unit +
        decimalValue fd * unitNanos unit / 10 ^ fd.length ≤ 2 ^ 63 :=
      Nat.le_trans (Nat.le_add_left _ _) hfit
    have hfdfit : decAccum fd 0 ≤ 2 ^ 63 - 1 := by
      rw [decAccum_zero]
      rcases hwhole with h0 | hk
      · rw [h0]; decide
      · have h11 : (10 : Nat) ^ fd.length ≤ 10 ^ 11 :=
          Nat.pow_le_pow_right (by decide) (le_trans hk hdec)
        have : decimalValue fd < 10 ^ 11 := lt_of_lt_of_le hfv h11
        exact le_of_lt (lt_trans this (by decide))
    have htail : ∀ c t, unit.toList ++ rest = c :: t → c.isDigit = false := by
      intro c t hct
      rw [hu1] at hct
      simp only [List.cons_append, List.cons.injEq] at hct
      rw [← hct.1]; exact hc1dig
    have hLF : leadingFraction (fd ++ (unit.toList ++ rest)) 0 0 false =
        (decimalValue fd, fd.length, unit.toList ++ rest) := by
      rw [leadingFraction_digits fd _ 0 0 hF htail hfdfit, decAccum_zero, Nat.zero_add]
    have hfrac : fractionPart ('.' :: (fd ++ (unit.toList ++ rest))) =
        (decimalValue fd, fd.length,
          decide ((fd ++ (unit.toList ++ rest)).length ≠ (unit.toList ++ rest).length),
          unit.toList ++ rest) := by
      simp only [fractionPart, if_true, hLF]
    have hLI : leadingInt (whole ++ '.' :: (fd ++ (unit.toList ++ rest))) 0 =
        some (decimalValue whole, '.' :: (fd ++ (unit.toList ++ rest))) := by
      rw [← decAccum_zero]
      apply leadingInt_digits _ _ _ hW
      · intro c t hct
        simp only [List.cons.injEq] at hct
        rw [← hct.1]; decide
      · exact hWfit
    have hv2 : (if decimalValue fd > 0 then
          (decimalValue whole * unitNanos unit +
            float64_fracNanos (decimalValue fd) (unitNanos unit) fd.length) % 2 ^ 64
        else decimalValue whole * unitNanos unit) =
        decimalValue whole * unitNanos unit +
          decimalValue fd * unitNanos unit / 10 ^ fd.length := by
      by_cases hf0 : decimalValue fd > 0
      · have hk : fd.length ≤ unitDecimals unit :=
          hwhole.resolve_left (Nat.pos_iff_ne_zero.1 hf0)
        have hex := float64_fracNanos_exact (decimalValue fd) (unitNanos unit) fd.length
          (le_trans hk (le_trans hdec (by decide)))
          (dvd_trans (pow_dvd_pow 10 hk) hdvd) h53 hfv
        rw [if_pos hf0, hex]
        exact Nat.mod_eq_of_lt (lt_of_le_of_lt hcomp (by decide))
      · have h0 : decimalValue fd = 0 := by omega
        rw [if_neg hf0, h0, Nat.zero_mul, Nat.zero_div, Nat.add_zero]
    have hrender : renderComponent ⟨whole, some fd, unit⟩ ++ rest =
        whole ++ '.' :: (fd ++ (unit.toList ++ rest)) := by
      simp [renderComponent]
    rw [hrender]
    cases whole with
    | nil =>
      have hfdne : fd ≠ [] := by
        rcases hne with h | h
        · exact absurd rfl h
        · exact h
      have hpost : decide ((fd ++ (unit.toList ++ rest)).length ≠
          (unit.toList ++ rest).length) = true := by
        have : 0 < fd.length := List.length_pos.2 hfdne
        simp only [List.length_append, ne_eq, decide_eq_true_eq]
        omega
      exact durationStep_eval float64_fracNanos '.' _ _ _ _ _ d _ _ _ _ _ _ (by decide)
        hLI hfrac (Or.inr hpost) hspan hune hmk hdiv hv2 hcomp hfit
    | cons c0 cs0 =>
      have hc0 : isUnitChar c0 = false :=
        isDigit_not_unitChar c0 (hW c0 (List.mem_cons_self _ _))
      have hlen : (c0 :: (cs0 ++ '.' :: (fd ++ (unit.toList ++ rest)))).length ≠
          ('.' :: (fd ++ (unit.toList ++ rest))).length := by
        simp only [List.length_cons, List.length_append]
        omega
      exact durationStep_eval float64_fracNanos c0 _ _ _ _ _ d _ _ _ _ _ _ hc0
        hLI hfrac (Or.inl hlen) hspan hune hmk hdiv hv2 hcomp hfit

/-- A well-formed component is written with a digit or a period first, and
takes at least two characters. -/
theorem renderComponent_shape (p : DurationComponent) (hwf : wellFormedComponent p) :
    ∃ c0 c1 t, renderComponent p = c0 :: c1 :: t ∧ isUnitChar c0 = false ∧
      c0 ≠ '+' ∧ c0 ≠ '-' := by
  obtain ⟨whole, frac, unit⟩ := p
  obtain ⟨hW, hF, hne, hu⟩ := hwf
  obtain ⟨hune, _, _, _⟩ := unitNames_spec unit hu
  obtain ⟨u0, ut, hu1⟩ := List.exists_cons_of_ne_nil hune
  simp only [DurationComponent.fracDigits] at hF hne
  cases whole with
  | nil =>
    cases frac with
    | none => simp at hne
    | some fd =>
      simp only [Option.getD_some, ne_eq, not_true_eq_false, false_or] at hne
      obtain ⟨f0, ft, rfl⟩ := List.exists_cons_of_ne_nil hne
      exact ⟨'.', f0, ft ++ unit.toList, by simp [renderComponent], by decide, by decide,
        by decide⟩
  | cons c0 cs0 =>
    have hd := hW c0 (List.mem_cons_self _ _)
    have hs := isDigit_not_sign c0 hd
    have hshape : ∃ c1 t, renderComponent ⟨c0 :: cs0, frac, unit⟩ = c0 :: c1 :: t := by
      cases cs0 with
      | nil =>
        cases frac with
        | none =>
          exact ⟨u0, ut, by
            simp only [renderComponent, List.append_nil, hu1, List.singleton_append]⟩
        | some fd => exact ⟨'.', fd ++ unit.toList, by simp [renderComponent]⟩
      | cons c1 cs1 =>
        exact ⟨c1, _, rfl⟩
    obtain ⟨c1, t, ht⟩ := hshape
    exact ⟨c0, c1, t, ht, isDigit_not_unitChar c0 hd, hs.1, hs.2⟩

theorem renderComponents_head (comps : List DurationComponent)
    (hwf : ∀ p ∈ comps, wellFormedComponent p) :
    ∀ c t, renderComponents comps = c :: t → isUnitChar c = false := by
  intro c t h
  cases comps with
  | nil => cases h
  | cons p ps =>
    obtain ⟨c0, c1, t0, hshape, hc0, _, _⟩ := renderComponent_shape p (hwf p (List.mem_cons_self _ _))
    simp only [renderComponents, hshape, List.cons_append, List.cons.injEq] at h
    rw [← h.1]; exact hc0

theorem totalNanos_cons (p : DurationComponent) (ps : List DurationComponent) :
    totalNanos (p :: ps) = componentNanos p + totalNanos ps := by
  simp [totalNanos]

/-- The loop of `time.ParseDuration` on components that are whole numbers of
nanoseconds adds them up; a fuel of the length of the string is enough. -/
theorem durationLoop_components (comps : List DurationComponent) (fuel d : Nat)
    (hwf : ∀ p ∈ comps, wellFormedComponent p)
    (hwhole : ∀ p ∈ comps, wholeNanosComponent p)
    (hfuel : (renderComponents comps).length ≤ fuel)
    (hfit : d + totalNanos comps ≤ 2 ^ 63) :
    durationLoop float64_fracNanos fuel (renderComponents comps) d =
      some (d + totalNanos comps) := by
  induction comps generalizing fuel d with
  | nil =>
    cases fuel <;> simp [renderComponents, durationLoop, totalNanos]
  | cons p ps ih =>
    have hp := hwf p (List.mem_cons_self _ _)
    have hps : ∀ q ∈ ps, wellFormedComponent q := fun q hq => hwf q (List.mem_cons_of_mem _ hq)
    have hps2 : ∀ q ∈ ps, wholeNanosComponent q :=
      fun q hq => hwhole q (List.mem_cons_of_mem _ hq)
    rw [totalNanos_cons] at hfit ⊢
    have hstep := durationStep_component p (renderComponents ps) d hp
      (hwhole p (List.mem_cons_self _ _)) (renderComponents_head ps hps) (by omega)
    obtain ⟨c0, c1, t0, hshape, _, _, _⟩ := renderComponent_shape p hp
    have hrender : renderComponents (p :: ps) = c0 :: (c1 :: t0 ++ renderComponents ps) := by
      simp only [renderComponents, hshape, List.cons_append]
    have hlen : (renderComponents ps).length < (renderComponents (p :: ps)).length := by
      rw [hrender]; simp only [List.length_cons, List.length_append]; omega
    cases fuel with
    | zero => omega
    | succ f =>
      have hstep2 : durationStep float64_fracNanos (c0 :: (c1 :: t0 ++ renderComponents ps)) d =
          some (renderComponents ps, d + componentNanos p) := by
        rw [← hrender]; exact hstep
      rw [hrender]
      simp only [durationLoop, hstep2]
      rw [ih f (d + componentNanos p) hps hps2 (by omega) (by omega)]
      congr 1; omega

/-- What `time.ParseDuration` returns on an optional sign followed by one or
more components that are whole numbers of nanoseconds and whose sum fits: the
signed sum. -/
theorem time_ParseDuration_components (str : String)
    (sign : List Char) (comps : List DurationComponent)
    (hsign : sign = [] ∨ sign = ['+'] ∨ sign = ['-'])
    (hcomps : comps ≠ [])
    (hwf : ∀ p ∈ comps, wellFormedComponent p)
    (hwhole : ∀ p ∈ comps, wholeNanosComponent p)
    (hstr : str.toList = sign ++ renderComponents comps)
    (hfit : if sign = ['-'] then totalNanos comps ≤ 2 ^ 63 else totalNanos comps ≤ 2 ^ 63 - 1) :
    time_ParseDuration float64_fracNanos str =
      some (if sign = ['-'] then - (totalNanos comps : Int) else (totalNanos comps : Int)) := by
  obtain ⟨p, ps, rfl⟩ := List.exists_cons_of_ne_nil hcomps
  obtain ⟨c0, c1, t0, hshape0, _, hplus, hminus⟩ :=
    renderComponent_shape p (hwf p (List.mem_cons_self _ _))
  have hshape : renderComponents (p :: ps) = c0 :: (c1 :: (t0 ++ renderComponents ps)) := by
    simp only [renderComponents, hshape0, List.cons_append]
  have hnz : renderComponents (p :: ps) ≠ ['0'] := by
    rw [hshape]; intro h
    have := congrArg List.length h
    simp only [List.length_cons, List.length_append, List.length_nil] at this
    omega
  have hnn : renderComponents (p :: ps) ≠ [] := by rw [hshape]; simp
  have hloop : ∀ bound, totalNanos (p :: ps) ≤ bound → bound ≤ 2 ^ 63 →
      durationLoop float64_fracNanos (renderComponents (p :: ps)).length
        (renderComponents (p :: ps)) 0 = some (totalNanos (p :: ps)) := by
    intro bound hb hb2
    have := durationLoop_components (p :: ps) _ 0 hwf hwhole (le_refl _) (by omega)
    simpa using this
  unfold time_ParseDuration
  rcases hsign with rfl | rfl | rfl
  · have hfit2 : totalNanos (p :: ps) ≤ 2 ^ 63 - 1 := by simpa using hfit
    have hs0 : str.toList = c0 :: (c1 :: (t0 ++ renderComponents ps)) := by
      rw [hstr, List.nil_append, hshape]
    have hneg : str.toList.head? ≠ some '-' := by
      rw [hs0]; simp; exact hminus
    have hbody : (match str.toList with
        | c :: cs => if c = '-' ∨ c = '+' then cs else str.toList
        | [] => str.toList) = renderComponents (p :: ps) := by
      rw [hs0]; simp [hplus, hminus, hshape]
    simp only [hbody, if_neg hnz, if_neg hnn, hloop _ hfit2 (by omega), hneg, decide_False]
    simp
    omega
  · have hfit2 : totalNanos (p :: ps) ≤ 2 ^ 63 - 1 := by simpa using hfit
    have hs0 : str.toList = '+' :: renderComponents (p :: ps) := by
      rw [hstr]; rfl
    have hneg : str.toList.head? ≠ some '-' := by
      rw [hs0]; simp
    have hbody : (match str.toList with
        | c :: cs => if c = '-' ∨ c = '+' then cs else str.toList
        | [] => str.toList) = renderComponents (p :: ps) := by
      rw [hs0]; simp
    simp only [hbody, if_neg hnz, if_neg hnn, hloop _ hfit2 (by omega), hneg, decide_False]
    simp
    omega
  · have hfit2 : totalNanos (p :: ps) ≤ 2 ^ 63 := by simpa using hfit
    have hs0 : str.toList = '-' :: renderComponents (p :: ps) := by
      rw [hstr]; rfl
    have hneg : str.toList.head? = some '-' := by
      rw [hs0]; rfl
    have hbody : (match str.toList with
        | c :: cs => if c = '-' ∨ c = '+' then cs else str.toList
        | [] => str.toList) = renderComponents (p :: ps) := by
      rw [hs0]; simp
    simp only [hbody, if_neg hnz, if_neg hnn, hloop _ hfit2 (by omega), hneg, decide_True]
    simp

/-- A component that is a whole number of nanoseconds denotes the number of
nanoseconds counted for it. -/
theorem componentValue_eq_componentNanos (p : DurationComponent)
    (hwf : wellFormedComponent p) (hwhole : wholeNanosComponent p) :
    componentValue p = (componentNanos p : ℚ) := by
  obtain ⟨_, _, _, hdvd, _⟩ := unitNanos_spec p.unit hwf.2.2.2
  have hdvd2 : 10 ^ p.fracDigits.length ∣ decimalValue p.fracDigits * unitNanos p.unit := by
    rcases hwhole with h0 | hk
    · rw [h0, Nat.zero_mul]; exact dvd_zero _
    · exact Dvd.dvd.mul_left (dvd_trans (pow_dvd_pow 10 hk) hdvd) _
  have hne : ((10 ^ p.fracDigits.length : Nat) : ℚ) ≠ 0 := by positivity
  unfold componentValue componentNanos
  rw [Nat.cast_add, Nat.cast_div hdvd2 hne]
  push_cast
  field_simp
  ring

theorem totalValue_eq_totalNanos (comps : List DurationComponent)
    (hwf : ∀ p ∈ comps, wellFormedComponent p)
    (hwhole : ∀ p ∈ comps, wholeNanosComponent p) :
    totalValue comps = (totalNanos comps : ℚ) := by
  induction comps with
  | nil => simp [totalValue, totalNanos]
  | cons p ps ih =>
    have hp := componentValue_eq_componentNanos p (hwf p (List.mem_cons_self _ _))
      (hwhole p (List.mem_cons_self _ _))
    have hps := ih (fun q hq => hwf q (List.mem_cons_of_mem _ hq))
      (fun q hq => hwhole q (List.mem_cons_of_mem _ hq))
    rw [totalNanos_cons]
    simp only [totalValue, List.map_cons, List.sum_cons] at hps ⊢
    rw [hp, hps]
    push_cast
    rfl

/-- C8 fails as worded: `0.5ns0.5ns` is a sequence of two decimal numbers each
followed by the unit `ns`, and the sum of the two components is one
nanosecond, which fits; `GetDuration` returns zero, each half nanosecond being
cut off on its own. -/
theorem GetDuration_sum_fails :
    (∀ p ∈ subNanoComponents, wellFormedComponent p) ∧
    "0.5ns0.5ns".toList = renderComponents subNanoComponents ∧
    durationEnviron (NewEnv.resolveName "SUB") = some "0.5ns0.5ns" ∧
    totalValue subNanoComponents = 1 ∧
    NewEnv.GetDuration float64_fracNanos durationEnviron (-7) ["SUB"] = 0 ∧
    ¬ (((NewEnv.GetDuration float64_fracNanos durationEnviron (-7) ["SUB"] : Int) : ℚ) =
        totalValue subNanoComponents) := by
  have h0 : decimalValue ['0'] = 0 := by decide
  have h5 : decimalValue ['5'] = 5 := by decide
  have hu : unitNanos "ns" = 1 := by decide
  have htotal : totalValue subNanoComponents = 1 := by
    simp only [totalValue, subNanoComponents, componentValue, DurationComponent.fracDigits,
      Option.getD_some, List.map_cons, List.map_nil, List.sum_cons, List.sum_nil, h0, h5, hu,
      List.length_singleton]
    norm_num
  have hget : NewEnv.GetDuration float64_fracNanos durationEnviron (-7) ["SUB"] = 0 := by
    set_option maxRecDepth 100000 in decide
  refine ⟨by decide, by decide, by decide, htotal, hget, ?_⟩
  rw [hget, htotal]
  norm_num

/-- C8, amended: when the candidates before `c` read empty and `c` resolves to
a value made of an optional sign and one or more components, each a decimal
number (digits, with or without a period and digits after it) followed by one
of the units ns, us, µs, ms, s, m, h; when every fraction is zero or has no
more digits than its unit has decimal places in nanoseconds; and when the
signed sum of the components fits a signed 64-bit count of nanoseconds; then
`GetDuration` returns that signed sum. -/
theorem GetDuration_sums (env : Env) (environ : Environ) (d : Int)
    (pre post : List String) (c s : String)
    (sign : List Char) (comps : List DurationComponent)
    (hpre : ∀ x ∈ pre, environ (env.resolveName x) = none ∨ environ (env.resolveName x) = some "")
    (hc : environ (env.resolveName c) = some s)
    (hsign : sign = [] ∨ sign = ['+'] ∨ sign = ['-'])
    (hcomps : comps ≠ [])
    (hwf : ∀ p ∈ comps, wellFormedComponent p)
    (hwhole : ∀ p ∈ comps, wholeNanosComponent p)
    (hstr : s.toList = sign ++ renderComponents comps)
    (hfit : if sign = ['-'] then totalValue comps ≤ 2 ^ 63 else totalValue comps ≤ 2 ^ 63 - 1) :
    ((env.GetDuration float64_fracNanos environ d (pre ++ c :: post) : Int) : ℚ) =
      if sign = ['-'] then - totalValue comps else totalValue comps := by
  have hs : s ≠ "" := by
    intro h
    have h2 : s.toList = [] := by rw [h]; rfl
    rw [hstr] at h2
    obtain ⟨p, ps, rfl⟩ := List.exists_cons_of_ne_nil hcomps
    obtain ⟨c0, c1, t0, hshape, _⟩ := renderComponent_shape p (hwf p (List.mem_cons_self _ _))
    simp [renderComponents, hshape] at h2
  have hl := lookupLoop_first env environ pre post c s hpre hc hs
  have hq := totalValue_eq_totalNanos comps hwf hwhole
  have hfitN : if sign = ['-'] then totalNanos comps ≤ 2 ^ 63
      else totalNanos comps ≤ 2 ^ 63 - 1 := by
    rw [hq] at hfit
    split_ifs with hm
    · rw [if_pos hm] at hfit
      exact_mod_cast hfit
    · rw [if_neg hm] at hfit
      have h1 : ((totalNanos comps : Nat) : ℚ) + 1 ≤ 2 ^ 63 := by linarith
      have h2 : totalNanos comps + 1 ≤ 2 ^ 63 := by exact_mod_cast h1
      omega
  have hp := time_ParseDuration_components s sign comps hsign hcomps hwf hwhole hstr hfitN
  simp only [Env.GetDuration, hl, if_neg hs, hp, hq]
  split_ifs <;> push_cast <;> rfl

/-- C8, amended, at `3m5s`, which is 185,000,000,000 nanoseconds, and at
`-1.5h`, which is minus 5,400,000,000,000 nanoseconds. -/
theorem GetDuration_sums_witness :
    ((NewEnv.GetDuration float64_fracNanos durationEnviron 0 ["DURATIONTEST"] : Int) : ℚ) =
      185000000000 ∧
    ((NewEnv.GetDuration float64_fracNanos durationEnviron 0 ["UNSET", "NEG"] : Int) : ℚ) =
      -5400000000000 := by
  have h1 : totalValue [⟨['3'], none, "m"⟩, ⟨['5'], none, "s"⟩] = 185000000000 := by
    rw [totalValue_eq_totalNanos _ (by decide) (by decide)]
    have : totalNanos [⟨['3'], none, "m"⟩, ⟨['5'], none, "s"⟩] = 185000000000 := by decide
    rw [this]; norm_num
  have h2 : totalValue [⟨['1'], some ['5'], "h"⟩] = 5400000000000 := by
    rw [totalValue_eq_totalNanos _ (by decide) (by decide)]
    have : totalNanos [⟨['1'], some ['5'], "h"⟩] = 5400000000000 := by decide
    rw [this]; norm_num
  constructor
  · have h := GetDuration_sums NewEnv durationEnviron 0 [] [] "DURATIONTEST" "3m5s"
      [] [⟨['3'], none, "m"⟩, ⟨['5'], none, "s"⟩]
      (by decide) (by decide) (by decide) (by decide) (by decide) (by decide) (by decide)
      (by rw [if_neg (by decide), h1]; norm_num)
    rw [if_neg (by decide), h1] at h
    exact h
  · have h := GetDuration_sums NewEnv durationEnviron 0 ["UNSET"] [] "NEG" "-1.5h"
      ['-'] [⟨['1'], some ['5'], "h"⟩]
      (by decide) (by decide) (by decide) (by decide) (by decide) (by decide) (by decide)
      (by rw [if_pos rfl, h2]; norm_num)
    rw [if_pos rfl, h2] at h
    exact h

end Staticenv
